import Mathlib

/-!
Verification of the Seejeh 7x7 rules engine and its AI opponent.

This file gives a shallow embedding, in Lean 4, of the game-rules module
(`src/lib/rules.ts`) and of the decision engine (`src/lib/ai.ts`) of the
repository, and proves (or refutes) a fixed list of specification claims
about them.

Modelling conventions:
* TypeScript `number` values used as integers (coordinates, counters) are
  embedded as `Int`; evaluation scores are embedded as `ℚ` (all score
  arithmetic performed by the source stays well inside the range where
  JavaScript float arithmetic is exact); the sentinel `±Infinity` values
  used by the search are embedded by `WithBot (WithTop ℚ)`.
* Functions that `throw` are embedded as `Except RulesError`; each
  `throw new Error(...)` site is mapped to a distinct error constructor.
* `state.board` is a 7x7 array of `Player | null`, embedded as
  `List (List (Option Player))` with guarded indexing (every read in the
  source is dominated by an `inBounds` test, so the out-of-range default
  is never observable).
* `JSON.stringify`-based board hashing compares exactly the triple
  (board, current, phase); stringification is injective on that data, so
  the hash is embedded as the triple itself.
* `Date.now()` timestamps are embedded as the constant `0`; no control
  flow of the source reads them.
-/

namespace Seejeh

/-- A player; the source uses the string literals Light and Dark. -/
inductive Player where
  | Light
  | Dark
deriving DecidableEq, Repr

/-- The inline expression `p === Light ? Dark : Light` used throughout the source. -/
def otherPlayer : Player → Player
  | .Light => .Dark
  | .Dark => .Light

/-- A board coordinate pair, 0-indexed, as in `src/lib/types.ts` (`Cell`). -/
structure Cell where
  r : Int
  c : Int
deriving DecidableEq, Repr

/-- Game phase, as in `src/lib/types.ts` (`Phase`). -/
inductive Phase where
  | placement
  | movement
  | chain
deriving DecidableEq, Repr

/-- Variant flags, as in `src/lib/types.ts` (`VariantFlags`). -/
structure VariantFlags where
  firstMoveMustEnterCenter : Bool
  antiShuttle : Bool
  blockadeOneRemoval : Bool
deriving DecidableEq, Repr

/-- The `Partial<VariantFlags>` argument of `initialState7x7`: each flag may be absent. -/
structure VariantOverrides where
  firstMoveMustEnterCenter : Option Bool := none
  antiShuttle : Option Bool := none
  blockadeOneRemoval : Option Bool := none
deriving DecidableEq, Repr

/-- One recorded move, as in `src/lib/types.ts` (`MoveRecord`).  The source stores
`pieceId` as the string template `r,c` built from the origin; that string determines
and is determined by the origin cell, so it is embedded as the cell itself. -/
structure MoveRecord where
  pieceId : Cell
  from' : Cell
  to' : Cell
  timestamp : Int
deriving DecidableEq, Repr

/-- Draw kinds of the stalemate win reason (source string literals
mutual, repetition, insufficient; `mutual` is a Lean keyword, hence the
constructor names). -/
inductive DrawType where
  | mutualDraw
  | repetitionDraw
  | insufficientDraw
deriving DecidableEq, Repr

/-- Win reasons, as in `src/lib/types.ts` (`WinReason`). -/
inductive WinReason where
  | stoneCount (loserStoneCount : Nat) (threshold : Nat) (loser : Player)
  | resignation (resignedPlayer : Player)
  | stalemate (drawType : DrawType)
deriving DecidableEq, Repr

/-- A pair of per-player values; the source uses `Record<Player, _>` objects. -/
structure PlayerMap (α : Type) where
  Light : α
  Dark : α
deriving DecidableEq, Repr

/-- Read a `Record<Player, _>` at a player key. -/
def PlayerMap.get {α : Type} (m : PlayerMap α) : Player → α
  | .Light => m.Light
  | .Dark => m.Dark

/-- The spread-update `{...m, [p]: v}` on a `Record<Player, _>`. -/
def PlayerMap.set {α : Type} (m : PlayerMap α) : Player → α → PlayerMap α
  | .Light, v => { m with Light := v }
  | .Dark, v => { m with Dark := v }

/-- The board array `(Player | null)[][]`. -/
abbrev Board := List (List (Option Player))

/-- Guarded board read `state.board[r][c]`.  Every read in the source is
dominated by an `inBounds` check, so the `none` default for out-of-range
indices is never observable on source-reachable paths. -/
def boardGet (b : Board) (r c : Int) : Option Player :=
  if 0 ≤ r ∧ r < 7 ∧ 0 ≤ c ∧ c < 7 then (b.getD r.toNat []).getD c.toNat none
  else none

/-- Board write `board[r][c] = v` (on a freshly copied board). -/
def boardSet (b : Board) (r c : Int) (v : Option Player) : Board :=
  b.set r.toNat ((b.getD r.toNat []).set c.toNat v)

/-- The data hashed by `createBoardHash` (`JSON.stringify` of board, current
player and phase); stringification is injective on this triple. -/
abbrev BoardHash := Board × Player × Phase

/-- The aggregate game state (`GameState` in `src/lib/types.ts`, with the
fields used by the current `src/lib/rules.ts`: stalemate offers, repetition
counter, last board hash and win reason included).  Optional fields model
`undefined` by `none`; `winner` is `Player | null | undefined`, hence
`Option (Option Player)`. -/
structure GameState where
  board : Board
  current : Player
  phase : Phase
  stonesToPlace : PlayerMap Int
  chainOrigin : Option Cell := none
  moveHistory : List MoveRecord
  variant : VariantFlags
  winner : Option (Option Player) := none
  winReason : Option WinReason := none
  placementCount : Int
  capturedLastMove : List Cell
  stalemateOffers : PlayerMap Bool
  moveRepetition : Int
  lastBoardHash : Option BoardHash := none
deriving DecidableEq, Repr

/-- Typed error kinds, one per `throw new Error(...)` site of the source.
`runtimeTypeError` stands for the JavaScript `TypeError` raised when a
property of `undefined` is accessed (only reachable from malformed inputs
that the source itself never produces). -/
inductive RulesError where
  | notInPlacementPhase
  | alreadyPlacedTwo
  | cellOutOfBounds
  | centerForbidden
  | cellOccupied
  | stillInPlacementPhase
  | cellsOutOfBounds
  | notYourPiece
  | destinationOccupied
  | invalidStepDistance
  | firstMoveMustEnterCenterViolation
  | antiShuttleViolation
  | notInChainMode
  | invalidBlockadeTarget
  | runtimeTypeError
deriving DecidableEq, Repr

instance {ε α : Type} [DecidableEq ε] [DecidableEq α] : DecidableEq (Except ε α) := fun a b =>
  match a, b with
  | .ok x, .ok y => if h : x = y then .isTrue (by rw [h]) else .isFalse (by simpa using h)
  | .error x, .error y => if h : x = y then .isTrue (by rw [h]) else .isFalse (by simpa using h)
  | .ok _, .error _ => .isFalse (by simp)
  | .error _, .ok _ => .isFalse (by simp)

/-- `initialState7x7` of `src/lib/rules.ts`: empty 7x7 board, Light to move,
placement phase, 24 stones per player, default variant merged with overrides. -/
def initialState7x7 (variant : VariantOverrides := {}) : GameState :=
  { board := List.replicate 7 (List.replicate 7 none)
    current := .Light
    phase := .placement
    stonesToPlace := { Light := 24, Dark := 24 }
    moveHistory := []
    variant :=
      { firstMoveMustEnterCenter := variant.firstMoveMustEnterCenter.getD false
        antiShuttle := variant.antiShuttle.getD false
        blockadeOneRemoval := variant.blockadeOneRemoval.getD true }
    placementCount := 0
    capturedLastMove := []
    stalemateOffers := { Light := false, Dark := false }
    moveRepetition := 0 }

/-- `isCenter` of `src/lib/rules.ts`; `Math.floor(7 / 2) = 3`. -/
def isCenter (cell : Cell) : Bool :=
  cell.r == 3 && cell.c == 3

/-- `inBounds` of `src/lib/rules.ts`. -/
def inBounds (cell : Cell) : Bool :=
  decide (0 ≤ cell.r) && decide (cell.r < 7) && decide (0 ≤ cell.c) && decide (cell.c < 7)

/-- The four orthogonal direction offsets, in source order (up, down, left, right). -/
def directions : List Cell :=
  [⟨-1, 0⟩, ⟨1, 0⟩, ⟨0, -1⟩, ⟨0, 1⟩]

/-- Componentwise offset addition `{ r: cell.r + dir.r, c: cell.c + dir.c }`. -/
def cellStep (cell dir : Cell) : Cell :=
  ⟨cell.r + dir.r, cell.c + dir.c⟩

/-- `neighbors` of `src/lib/rules.ts`: the ≤ 4 in-bounds orthogonal neighbors. -/
def neighbors (cell : Cell) : List Cell :=
  (directions.map (cellStep cell)).filter inBounds

/-- `placementsFor` of `src/lib/rules.ts`: every empty non-center cell, in
row-major order; empty outside the placement phase.  (The `player` argument
is unused by the source as well.) -/
def placementsFor (state : GameState) (_player : Player) : List Cell :=
  if state.phase ≠ .placement then []
  else
    (List.range 7).flatMap fun (r : Nat) =>
      ((List.range 7).filter fun (c : Nat) =>
          !isCenter ⟨r, c⟩ && boardGet state.board r c == none).map
        fun c => (⟨r, c⟩ : Cell)

/-- `movesFor` of `src/lib/rules.ts`: empty orthogonal neighbors of a cell
holding the current player's stone; empty during placement. -/
def movesFor (state : GameState) (from' : Cell) : List Cell :=
  if state.phase = .placement then []
  else if !inBounds from' || boardGet state.board from'.r from'.c != some state.current then []
  else (neighbors from').filter fun to' => boardGet state.board to'.r to'.c == none

/-- The per-cell validation loop of `applyPlacement`, returning the first
error among out-of-bounds, center, occupied, in source order. -/
def validatePlacements (state : GameState) : List Cell → Option RulesError
  | [] => none
  | cell :: rest =>
    if !inBounds cell then some .cellOutOfBounds
    else if isCenter cell then some .centerForbidden
    else if boardGet state.board cell.r cell.c != none then some .cellOccupied
    else validatePlacements state rest

/-- `applyPlacement` of `src/lib/rules.ts`.  The source filters the two cell
arguments through `filter(Boolean)`, so each argument is an `Option Cell`
(callers may pass `undefined`). -/
def applyPlacement (state : GameState) (cell1 cell2 : Option Cell) : Except RulesError GameState :=
  if state.phase ≠ .placement then .error .notInPlacementPhase
  else if state.placementCount ≥ 2 then .error .alreadyPlacedTwo
  else
    let placements := [cell1, cell2].filterMap id
    match validatePlacements state placements with
    | some e => .error e
    | none =>
      let board' := placements.foldl (fun b cell => boardSet b cell.r cell.c (some state.current)) state.board
      let pc := state.placementCount + (placements.length : Int)
      let stp := state.stonesToPlace.set state.current
        (state.stonesToPlace.get state.current - (placements.length : Int))
      let base := { state with board := board', placementCount := pc, stonesToPlace := stp }
      if pc ≥ 2 || stp.get state.current ≤ 0 then
        let s2 := { base with current := otherPlayer state.current, placementCount := 0 }
        if s2.stonesToPlace.Light ≤ 0 && s2.stonesToPlace.Dark ≤ 0 then
          .ok { s2 with phase := .movement }
        else .ok s2
      else .ok base

/-- The anti-shuttle test of `applyMove`: the last 4 recorded moves of the
piece keyed by the origin cell, checked for a strict back-and-forth pattern
ending at the attempted destination. -/
def isShuttling (state : GameState) (from' to' : Cell) : Bool :=
  let filtered := state.moveHistory.filter fun m => m.pieceId == from'
  let recent := filtered.drop (filtered.length - 4)
  recent.length ≥ 4 &&
    recent.enum.all fun im =>
      if im.1 % 2 == 0 then im.2.from' == to' else im.2.to' == to'

/-- The inner `while` loop of `resolveCaptures` and `previewCaptures`
(textually identical in both source functions): starting from `pos`, collect
contiguous opponent-held cells in direction `dir`, skipping the center, and
return the collected line together with the stopping position.  The fuel `8`
strictly exceeds the longest possible run on a 7-wide board, so the loop
always terminates by its own condition first. -/
def walkRun (b : Board) (opponent : Player) (dir : Cell) : Cell → Nat → List Cell × Cell
  | pos, 0 => ([], pos)
  | pos, fuel + 1 =>
    if inBounds pos && boardGet b pos.r pos.c == some opponent then
      let rest := walkRun b opponent dir (cellStep pos dir) fuel
      (if isCenter pos then rest.1 else pos :: rest.1, rest.2)
    else ([], pos)

/-- One direction of the capture scan: the collected line is captured when it
is non-empty and the stopping cell is in bounds and holds the mover's stone. -/
def directionCapture (b : Board) (player opponent : Player) (movedTo dir : Cell) : List Cell :=
  let w := walkRun b opponent dir (cellStep movedTo dir) 8
  if w.1.length > 0 && inBounds w.2 && boardGet b w.2.r w.2.c == some player then w.1 else []

/-- Result record of `resolveCaptures` (`CaptureResult` in `src/lib/types.ts`). -/
structure CaptureResult where
  captured : List Cell
deriving DecidableEq, Repr

/-- `resolveCaptures` of `src/lib/rules.ts`: custodian capture lines in the
four orthogonal directions from the just-occupied cell. -/
def resolveCaptures (state : GameState) (movedTo : Cell) : CaptureResult :=
  match boardGet state.board movedTo.r movedTo.c with
  | none => ⟨[]⟩
  | some player =>
    let opponent := otherPlayer player
    ⟨(directions.map (directionCapture state.board player opponent movedTo)).flatten⟩

/-- `countStones` of `src/lib/rules.ts`. -/
def countStones (state : GameState) (player : Player) : Nat :=
  ((List.range 7).map fun (r : Nat) =>
    ((List.range 7).filter fun (c : Nat) => boardGet state.board r c == some player).length).sum

/-- Result of `checkWin` (`{ winner: Player | null; reason: WinReason }`). -/
structure CheckWinResult where
  winner : Option Player
  reason : WinReason
deriving DecidableEq, Repr

/-- The stone-count tie-break used by the stalemate branches of `checkWin`
and `detectStalemate`. -/
def stoneLeader (lightCount darkCount : Nat) : Option Player :=
  if lightCount > darkCount then some .Light
  else if darkCount > lightCount then some .Dark
  else none

/-- `checkWin` of `src/lib/rules.ts`: stone-count threshold 7, mutual
stalemate offers, repetition counter threshold 6. -/
def checkWin (state : GameState) : Option CheckWinResult :=
  let lightCount := countStones state .Light
  let darkCount := countStones state .Dark
  if lightCount ≤ 7 then some ⟨some .Dark, .stoneCount lightCount 7 .Light⟩
  else if darkCount ≤ 7 then some ⟨some .Light, .stoneCount darkCount 7 .Dark⟩
  else if state.stalemateOffers.Light && state.stalemateOffers.Dark then
    some ⟨stoneLeader lightCount darkCount, .stalemate .mutualDraw⟩
  else if state.moveRepetition ≥ 6 then
    some ⟨stoneLeader lightCount darkCount, .stalemate .repetitionDraw⟩
  else none

/-- The `checkWin` merge step shared by `applyMove` and `offerStalemate`
(`if (winResult) { newState.winner = ...; newState.winReason = ... }`). -/
def mergeWin (state : GameState) : GameState :=
  match checkWin state with
  | some w => { state with winner := some w.winner, winReason := some w.reason }
  | none => state

/-- `hasAnyLegalMove` of `src/lib/rules.ts`. -/
def hasAnyLegalMove (state : GameState) (player : Player) : Bool :=
  if state.phase = .placement then (placementsFor state player).length > 0
  else
    (List.range 7).any fun (r : Nat) =>
      (List.range 7).any fun (c : Nat) =>
        boardGet state.board r c == some player && (movesFor state ⟨r, c⟩).length > 0

/-- `createBoardHash` of `src/lib/rules.ts`: the stringified (board, current,
phase) triple, embedded as the triple itself. -/
def createBoardHash (state : GameState) : BoardHash :=
  (state.board, state.current, state.phase)

/-- `checkInsufficientMaterial` of `src/lib/rules.ts`. -/
def checkInsufficientMaterial (state : GameState) : Bool :=
  let totalStones := countStones state .Light + countStones state .Dark
  totalStones ≤ 6 && state.capturedLastMove.length == 0

/-- `detectStalemate` of `src/lib/rules.ts`: mutual immobility or
insufficient material in the movement phase, decided by stone count. -/
def detectStalemate (state : GameState) : GameState :=
  if state.phase ≠ .movement then state
  else
    let lightHasMoves := hasAnyLegalMove state .Light
    let darkHasMoves := hasAnyLegalMove state .Dark
    if !lightHasMoves && !darkHasMoves then
      { state with
        winner := some (stoneLeader (countStones state .Light) (countStones state .Dark))
        winReason := some (.stalemate .insufficientDraw) }
    else if checkInsufficientMaterial state then
      { state with
        winner := some (stoneLeader (countStones state .Light) (countStones state .Dark))
        winReason := some (.stalemate .insufficientDraw) }
    else state

/-- The board after the piece move of `applyMove` (`board[from] = null;
board[to] = current`, on a fresh copy). -/
def moveBoard (b : Board) (player : Player) (from' to' : Cell) : Board :=
  boardSet (boardSet b from'.r from'.c none) to'.r to'.c (some player)

/-- The intermediate state of `applyMove` after moving the piece and
appending the move record, before capture resolution (`newState` at the
point where `resolveCaptures` is invoked). -/
def movedState (state : GameState) (from' to' : Cell) : GameState :=
  { state with
    board := moveBoard state.board state.current from' to'
    moveHistory := state.moveHistory ++ [⟨from', from', to', 0⟩] }

/-- The capture list computed by `applyMove` for a validated move. -/
def moveCaptures (state : GameState) (from' to' : Cell) : List Cell :=
  (resolveCaptures (movedState state from' to') to').captured

/-- The closing steps of `applyMove`: win-check merge, then automatic
stalemate detection with its early return (`if (stalemateCheck.winner !==
undefined || stalemateCheck.winner === null) return stalemateCheck`). -/
def finishMove (state : GameState) : GameState :=
  let ns5 := mergeWin state
  let stalemateCheck := detectStalemate ns5
  if stalemateCheck.winner.isSome then stalemateCheck else ns5

/-- The state returned by `applyMove` once all validations have passed:
captured stones removed, repetition tracked, the chain/turn-end branch, win
check and automatic stalemate detection (the source's `newState` pipeline,
factored out of the guarded function for reuse in proofs). -/
def applyMoveResult (state : GameState) (from' to' : Cell) : GameState :=
  let ns1 := movedState state from' to'
  let captured := moveCaptures state from' to'
  let board2 := captured.foldl (fun b cell => boardSet b cell.r cell.c none) ns1.board
  let ns2 := { ns1 with capturedLastMove := captured, board := board2 }
  let currentBoardHash := createBoardHash ns2
  let rep : Int := if state.lastBoardHash = some currentBoardHash then state.moveRepetition + 1 else 0
  let ns3 := { ns2 with moveRepetition := rep, lastBoardHash := some currentBoardHash }
  finishMove
    (if captured.length > 0 then { ns3 with phase := .chain, chainOrigin := some to' }
     else { ns3 with current := otherPlayer state.current })

/-- `applyMove` of `src/lib/rules.ts`: validation, variant enforcement, then
the `applyMoveResult` pipeline (move, capture resolution and removal,
repetition tracking, the chain/turn-end branch, win check and automatic
stalemate detection). -/
def applyMove (state : GameState) (from' to' : Cell) : Except RulesError GameState :=
  if state.phase = .placement then .error .stillInPlacementPhase
  else if !(inBounds from' && inBounds to') then .error .cellsOutOfBounds
  else if boardGet state.board from'.r from'.c != some state.current then .error .notYourPiece
  else if boardGet state.board to'.r to'.c != none then .error .destinationOccupied
  else if (to'.r - from'.r).natAbs + (to'.c - from'.c).natAbs ≠ 1 then .error .invalidStepDistance
  else if state.variant.firstMoveMustEnterCenter && state.moveHistory.isEmpty && !isCenter to' then
    .error .firstMoveMustEnterCenterViolation
  else if state.variant.antiShuttle && isShuttling state from' to' then .error .antiShuttleViolation
  else .ok (applyMoveResult state from' to')

/-- `applyChainStep` of `src/lib/rules.ts`: delegates to `applyMove` from the
chain origin after re-tagging the phase as movement. -/
def applyChainStep (state : GameState) (to' : Cell) : Except RulesError GameState :=
  if state.phase ≠ .chain ∨ state.chainOrigin = none then .error .notInChainMode
  else applyMove { state with phase := .movement } (state.chainOrigin.getD ⟨0, 0⟩) to'

/-- `endChain` of `src/lib/rules.ts`. -/
def endChain (state : GameState) : Except RulesError GameState :=
  if state.phase ≠ .chain then .error .notInChainMode
  else .ok { state with phase := .movement, current := otherPlayer state.current, chainOrigin := none }

/-- `previewCaptures` of `src/lib/rules.ts`: validity check through
`movesFor`, then the identical directional walk against the hypothetical
destination, on the unmodified board. -/
def previewCaptures (state : GameState) (from' to' : Cell) : List Cell :=
  if !(movesFor state from').any (fun m => m.r == to'.r && m.c == to'.c) then []
  else
    match boardGet state.board from'.r from'.c with
    | none => []
    | some player =>
      let opponent := otherPlayer player
      (directions.map (directionCapture state.board player opponent to')).flatten

/-- `invokeBlockadeIfAny` of `src/lib/rules.ts`. -/
def invokeBlockadeIfAny (state : GameState) (removeCell : Option Cell) : Except RulesError GameState :=
  if !state.variant.blockadeOneRemoval then .ok state
  else if hasAnyLegalMove state state.current then .ok state
  else
    match removeCell with
    | none => .ok { state with winner := none }
    | some cell =>
      if !inBounds cell || boardGet state.board cell.r cell.c != some state.current then
        .error .invalidBlockadeTarget
      else .ok { state with board := boardSet state.board cell.r cell.c none }

/-- `offerStalemate` of `src/lib/rules.ts`: set the acting player's flag and
re-run the win detector. -/
def offerStalemate (state : GameState) : GameState :=
  mergeWin { state with stalemateOffers := state.stalemateOffers.set state.current true }

/-- `rejectStalemate` of `src/lib/rules.ts`. -/
def rejectStalemate (state : GameState) (player : Player) : GameState :=
  { state with stalemateOffers := state.stalemateOffers.set player false }

/-- `resignGame` of `src/lib/rules.ts`: unconditionally awards the game to
the non-resigning player with reason resignation. -/
def resignGame (state : GameState) (resigningPlayer : Player) : GameState :=
  { state with
    winner := some (some (otherPlayer resigningPlayer))
    winReason := some (.resignation resigningPlayer) }

/-- Evaluation weight set of `src/lib/ai.ts` (`EvaluationWeights`). -/
structure EvaluationWeights where
  stoneCount : ℚ
  centerControl : ℚ
  mobility : ℚ
  captures : ℚ
  positioning : ℚ
  safety : ℚ
deriving DecidableEq, Repr

/-- AI difficulty tiers (`AIDifficulty` in `src/lib/types.ts`). -/
inductive AIDifficulty where
  | beginner
  | easy
  | medium
  | hard
deriving DecidableEq, Repr

/-- One entry of `DIFFICULTY_CONFIGS` in `src/lib/ai.ts`. -/
structure DifficultyConfig where
  depth : Nat
  weights : EvaluationWeights
deriving DecidableEq, Repr

/-- `DIFFICULTY_CONFIGS` of `src/lib/ai.ts`. -/
def difficultyConfig : AIDifficulty → DifficultyConfig
  | .beginner =>
    { depth := 1
      weights :=
        { stoneCount := 10, centerControl := 1, mobility := 0.5, captures := 20,
          positioning := 0.5, safety := 0.5 } }
  | .easy =>
    { depth := 2
      weights :=
        { stoneCount := 10, centerControl := 2, mobility := 1, captures := 15,
          positioning := 1, safety := 1 } }
  | .medium =>
    { depth := 3
      weights :=
        { stoneCount := 10, centerControl := 5, mobility := 3, captures := 20,
          positioning := 4, safety := 3 } }
  | .hard =>
    { depth := 4
      weights :=
        { stoneCount := 10, centerControl := 8, mobility := 5, captures := 25,
          positioning := 7, safety := 6 } }

/-- `calculateMobility` of `src/lib/ai.ts`: placement-cell count during
placement, otherwise the sum of per-piece legal-move counts.  (Because
`movesFor` answers for the current player only, this is `0` for the
non-current player during movement/chain.) -/
def calculateMobility (state : GameState) (player : Player) : Nat :=
  if state.phase = .placement then (placementsFor state player).length
  else
    ((List.range 7).map fun (r : Nat) =>
      (((List.range 7).filter fun (c : Nat) => boardGet state.board r c == some player).map
        fun c => (movesFor state ⟨r, c⟩).length).sum).sum

/-- The per-cell body of the `evaluatePositioning` loop of `src/lib/ai.ts`:
center proximity `max(0, 6 - manhattan) * 0.5` plus 3 for corners, 1 for
other edge cells. -/
def cellPositionScore (r c : Nat) : ℚ :=
  let distanceFromCenter : Int := ((r : Int) - 3).natAbs + ((c : Int) - 3).natAbs
  ((max 0 (6 - distanceFromCenter) : Int) : ℚ) * 0.5 +
    (if (r = 0 ∨ r = 6) ∧ (c = 0 ∨ c = 6) then 3
     else if r = 0 ∨ r = 6 ∨ c = 0 ∨ c = 6 then 1
     else 0)

/-- `evaluatePositioning` of `src/lib/ai.ts`. -/
def evaluatePositioning (state : GameState) (player : Player) (weight : ℚ) : ℚ :=
  (((List.range 7).map fun (r : Nat) =>
    ((((List.range 7).filter fun (c : Nat) => boardGet state.board r c == some player)).map
      fun c => cellPositionScore r c).sum).sum) * weight

/-- The per-cell body of the `evaluateSafety` loop of `src/lib/ai.ts`: a flat
5 for the center, otherwise 0.5 per same-player orthogonal neighbor (the
source re-checks bounds on neighbors already filtered by `neighbors`). -/
def cellSafetyScore (state : GameState) (player : Player) (r c : Nat) : ℚ :=
  if isCenter ⟨r, c⟩ then 5
  else
    let friendlyNeighbors :=
      ((neighbors ⟨r, c⟩).filter fun nb =>
        decide (0 ≤ nb.r) && decide (nb.r < 7) && decide (0 ≤ nb.c) && decide (nb.c < 7) &&
          boardGet state.board nb.r nb.c == some player).length
    (friendlyNeighbors : ℚ) * 0.5

/-- `evaluateSafety` of `src/lib/ai.ts`. -/
def evaluateSafety (state : GameState) (player : Player) (weight : ℚ) : ℚ :=
  (((List.range 7).map fun (r : Nat) =>
    ((((List.range 7).filter fun (c : Nat) => boardGet state.board r c == some player)).map
      fun c => cellSafetyScore state player r c).sum).sum) * weight

/-- `evaluatePosition` of `src/lib/ai.ts`: ±10000 on a decided position
(`checkWin` result's winner compared against the player), otherwise the
weighted sum of stone difference, center control, mobility difference,
positioning and safety. -/
def evaluatePosition (state : GameState) (player : Player) (w : EvaluationWeights) : ℚ :=
  let opponent := otherPlayer player
  let winnerField := (checkWin state).map (·.winner)
  if winnerField = some (some player) then 10000
  else if winnerField = some (some opponent) then -10000
  else
    let score1 := ((countStones state player : ℚ) - (countStones state opponent : ℚ)) * w.stoneCount
    let score2 := score1 +
      (if boardGet state.board 3 3 = some player then w.centerControl
       else if boardGet state.board 3 3 = some opponent then -w.centerControl
       else 0)
    let score3 := score2 +
      ((calculateMobility state player : ℚ) - (calculateMobility state opponent : ℚ)) * w.mobility
    let score4 := score3 + evaluatePositioning state player w.positioning
      - evaluatePositioning state opponent w.positioning
    score4 + evaluateSafety state player w.safety - evaluateSafety state opponent w.safety

/-- The `placement | movement` discriminator of the `AIMove` record. -/
inductive AIMoveType where
  | placement
  | movement
deriving DecidableEq, Repr

/-- AI action record (`AIMove` in `src/lib/ai.ts`): discriminator, cell list,
and the optional from/to fields used by movement actions. -/
structure AIMove where
  type : AIMoveType
  cells : List Cell
  from' : Option Cell := none
  to' : Option Cell := none
deriving DecidableEq, Repr

/-- `generateAllMoves` of `src/lib/ai.ts`: single-cell placement actions in
row-major order during placement (the source's two `placementCount` branches
are textually identical), else one movement action per piece and legal
destination, in row-major piece order. -/
def generateAllMoves (state : GameState) : List AIMove :=
  if state.phase = .placement then
    (placementsFor state state.current).map fun cell => { type := .placement, cells := [cell] }
  else
    (List.range 7).flatMap fun (r : Nat) =>
      (List.range 7).flatMap fun (c : Nat) =>
        if boardGet state.board r c == some state.current then
          (movesFor state ⟨r, c⟩).map fun t =>
            { type := .movement, cells := [⟨r, c⟩, t], from' := some ⟨r, c⟩, to' := some t }
        else []

/-- `applyMoveToState` of `src/lib/ai.ts`: placements are simulated inline on
a deep copy (the copy is the identity in a pure embedding); movements go
through `applyMove`.  The `cells[0]` / non-null `from!`/`to!` accesses fault
on malformed actions that the generator never produces. -/
def applyMoveToState (state : GameState) (move : AIMove) : Except RulesError GameState :=
  match move.type with
  | .placement =>
    match move.cells with
    | [] => .error .runtimeTypeError
    | cell :: _ =>
      let b := boardSet state.board cell.r cell.c (some state.current)
      let stp := state.stonesToPlace.set state.current (state.stonesToPlace.get state.current - 1)
      if state.placementCount = 0 then
        .ok { state with board := b, placementCount := 1, stonesToPlace := stp }
      else
        let s1 := { state with
          board := b
          placementCount := 0
          current := otherPlayer state.current
          stonesToPlace := stp }
        if s1.stonesToPlace.Light ≤ 0 && s1.stonesToPlace.Dark ≤ 0 then
          .ok { s1 with phase := .movement }
        else .ok s1
  | .movement =>
    match move.from', move.to' with
    | some f, some t => applyMove state f t
    | _, _ => .error .runtimeTypeError

/-- Sentinel-extended score domain of the search: a JavaScript `number` that
is either `-Infinity` (`⊥`), a finite score, or `+Infinity` (`⊤`). -/
abbrev ERat := WithBot (WithTop ℚ)

/-- Embed a finite score into the sentinel-extended domain. -/
def toERat (q : ℚ) : ERat := ((q : WithTop ℚ) : ERat)

/-- JavaScript addition of a finite number to a possibly infinite one
(`±Infinity + finite = ±Infinity`). -/
def eratAdd (a : ERat) (q : ℚ) : ERat :=
  match a with
  | none => none
  | some none => some none
  | some (some x) => some (some (x + q))

/-- The maximizing loop of `minimax`, abstracted over the state application
(`applyMoveToState state`) and the one-level-deeper evaluation `child` (the
recursive `minimax` call): running maximum `maxEval`, rising `alpha`, early
exit when `beta <= alpha`. -/
def maxGo (apply : AIMove → Except RulesError GameState)
    (child : GameState → ERat → ERat → Except RulesError ERat) (beta : ERat) :
    List AIMove → ERat → ERat → Except RulesError ERat
  | [], _, maxEval => .ok maxEval
  | move :: rest, alpha, maxEval => do
    let newState ← apply move
    let v ← child newState alpha beta
    let maxEval' := max maxEval v
    let alpha' := max alpha v
    if beta ≤ alpha' then .ok maxEval'
    else maxGo apply child beta rest alpha' maxEval'

/-- The minimizing loop of `minimax`, abstracted the same way: running
minimum `minEval`, falling `beta`, early exit when `beta <= alpha`. -/
def minGo (apply : AIMove → Except RulesError GameState)
    (child : GameState → ERat → ERat → Except RulesError ERat) (alpha : ERat) :
    List AIMove → ERat → ERat → Except RulesError ERat
  | [], _, minEval => .ok minEval
  | move :: rest, beta, minEval => do
    let newState ← apply move
    let v ← child newState alpha beta
    let minEval' := min minEval v
    let beta' := min beta v
    if beta' ≤ alpha then .ok minEval'
    else minGo apply child alpha rest beta' minEval'

/-- `minimax` of `src/lib/ai.ts` with its alpha-beta pruning cutoffs:
evaluate at depth 0, on a decided position, or with no legal continuation;
otherwise fold over all generated actions, maximizing or minimizing, with
the source's `break` once `beta <= alpha`. -/
def minimax : Nat → GameState → Bool → Player → EvaluationWeights → ERat → ERat →
    Except RulesError ERat
  | 0, state, _, player, w, _, _ => .ok (toERat (evaluatePosition state player w))
  | d + 1, state, maximizingPlayer, player, w, alpha, beta =>
    if (checkWin state).isSome then .ok (toERat (evaluatePosition state player w))
    else
      let moves := generateAllMoves state
      if moves.isEmpty then .ok (toERat (evaluatePosition state player w))
      else if maximizingPlayer then
        maxGo (applyMoveToState state) (fun ns a b => minimax d ns false player w a b)
          beta moves alpha ⊥
      else
        minGo (applyMoveToState state) (fun ns a b => minimax d ns true player w a b)
          alpha moves beta ⊤

/-- The maximizing loop of `minimaxPlain` (no alpha/beta, no early exit). -/
def plainMaxGo (apply : AIMove → Except RulesError GameState)
    (child : GameState → Except RulesError ERat) :
    List AIMove → ERat → Except RulesError ERat
  | [], maxEval => .ok maxEval
  | move :: rest, maxEval => do
    let newState ← apply move
    let v ← child newState
    plainMaxGo apply child rest (max maxEval v)

/-- The minimizing loop of `minimaxPlain`. -/
def plainMinGo (apply : AIMove → Except RulesError GameState)
    (child : GameState → Except RulesError ERat) :
    List AIMove → ERat → Except RulesError ERat
  | [], minEval => .ok minEval
  | move :: rest, minEval => do
    let newState ← apply move
    let v ← child newState
    plainMinGo apply child rest (min minEval v)

/-- The claim C7 reference recursion: `minimax` with the pruning cutoff
removed (no alpha/beta state, no early exit), everything else identical. -/
def minimaxPlain : Nat → GameState → Bool → Player → EvaluationWeights →
    Except RulesError ERat
  | 0, state, _, player, w => .ok (toERat (evaluatePosition state player w))
  | d + 1, state, maximizingPlayer, player, w =>
    if (checkWin state).isSome then .ok (toERat (evaluatePosition state player w))
    else
      let moves := generateAllMoves state
      if moves.isEmpty then .ok (toERat (evaluatePosition state player w))
      else if maximizingPlayer then
        plainMaxGo (applyMoveToState state) (fun ns => minimaxPlain d ns false player w) moves ⊥
      else
        plainMinGo (applyMoveToState state) (fun ns => minimaxPlain d ns true player w) moves ⊤

/-- The comparison loop of `getBestAIMove` in `src/lib/ai.ts`: for each
candidate, re-run `resolveCaptures` on the already-applied state and, when it
reports captures, add the capture bonus to the running `bestScore`; then
search the candidate and keep it when its score strictly exceeds the running
`bestScore`. -/
def bestGo (state : GameState) (config : DifficultyConfig) :
    List AIMove → AIMove → ERat → Except RulesError AIMove
  | [], bestMove, _ => .ok bestMove
  | move :: rest, bestMove, bestScore => do
    let newState ← applyMoveToState state move
    let bestScore1 ←
      if move.type = .movement then
        match move.to' with
        | none => .error .runtimeTypeError
        | some t =>
          let captures := resolveCaptures newState t
          if captures.captured.length > 0 then
            pure (eratAdd bestScore ((captures.captured.length : ℚ) * config.weights.captures))
          else pure bestScore
      else pure bestScore
    let score ← minimax (config.depth - 1) newState false state.current config.weights ⊥ ⊤
    if bestScore1 < score then bestGo state config rest move score
    else bestGo state config rest bestMove bestScore1

/-- The deterministic core of `getBestAIMove` in `src/lib/ai.ts` (everything
below the two `Math.random()` gates that, for the beginner/easy tiers only,
sometimes return a uniformly random action instead of searching): generate
all actions, then run the comparison loop seeded with `moves[0]` and
`bestScore = -Infinity`. -/
def getBestAIMoveCore (state : GameState) (difficulty : AIDifficulty) :
    Except RulesError (Option AIMove) :=
  let config := difficultyConfig difficulty
  match generateAllMoves state with
  | [] => .ok none
  | m0 :: rest => do
    let best ← bestGo state config (m0 :: rest) m0 ⊥
    .ok (some best)

/-! ## Reachability

States reachable from `initialState7x7` through the public mutators of the
rules module. -/

/-- Reachability of a game state from some initial state by successful
applications of the eight public mutators. -/
inductive Reachable : GameState → Prop where
  | init (variant : VariantOverrides) : Reachable (initialState7x7 variant)
  | placement {s s' : GameState} (c1 c2 : Option Cell) :
      Reachable s → applyPlacement s c1 c2 = .ok s' → Reachable s'
  | move {s s' : GameState} (f t : Cell) :
      Reachable s → applyMove s f t = .ok s' → Reachable s'
  | chainStep {s s' : GameState} (t : Cell) :
      Reachable s → applyChainStep s t = .ok s' → Reachable s'
  | chainEnd {s s' : GameState} :
      Reachable s → endChain s = .ok s' → Reachable s'
  | blockade {s s' : GameState} (rc : Option Cell) :
      Reachable s → invokeBlockadeIfAny s rc = .ok s' → Reachable s'
  | offer {s : GameState} : Reachable s → Reachable (offerStalemate s)
  | reject {s : GameState} (p : Player) : Reachable s → Reachable (rejectStalemate s p)
  | resign {s : GameState} (p : Player) : Reachable s → Reachable (resignGame s p)

/-! ## Basic helper lemmas -/

theorem otherPlayer_ne (p : Player) : otherPlayer p ≠ p := by
  cases p <;> simp [otherPlayer]

theorem detectStalemate_capturedLastMove (s : GameState) :
    (detectStalemate s).capturedLastMove = s.capturedLastMove := by
  unfold detectStalemate; dsimp only; split_ifs <;> rfl

theorem detectStalemate_phase (s : GameState) : (detectStalemate s).phase = s.phase := by
  unfold detectStalemate; dsimp only; split_ifs <;> rfl

theorem detectStalemate_current (s : GameState) : (detectStalemate s).current = s.current := by
  unfold detectStalemate; dsimp only; split_ifs <;> rfl

theorem detectStalemate_chainOrigin (s : GameState) :
    (detectStalemate s).chainOrigin = s.chainOrigin := by
  unfold detectStalemate; dsimp only; split_ifs <;> rfl

theorem detectStalemate_board (s : GameState) : (detectStalemate s).board = s.board := by
  unfold detectStalemate; dsimp only; split_ifs <;> rfl

/-! ## Claim C9 (resignation) -/

/-- Claim C9, amended: the rules-level `resignGame` succeeds on every state,
unconditionally making the non-resigning player the winner with reason
Resignation carrying the resigning player; the restriction of resignation to
non-terminal, non-Placement states is enforced by the calling UI layer
(`Controls.tsx` hides the action, the store ignores it once a winner is
set), not by this function. -/
theorem C9_resignGame_unconditional (s : GameState) (p : Player) :
    resignGame s p =
      { s with winner := some (some (otherPlayer p)), winReason := some (.resignation p) } := by
  rfl

/-- A terminal state in the placement phase: Light has already won. -/
def c9TerminalPlacementState : GameState :=
  { initialState7x7 with winner := some (some .Light) }

/-- Claim C9, counterexample: `resignGame` succeeds on a terminal state in
the Placement phase and overwrites the stored winner, contradicting
"resignation succeeds only when the state is non-terminal and the phase is
not Placement". -/
theorem C9_counterexample :
    c9TerminalPlacementState.winner = some (some .Light) ∧
    c9TerminalPlacementState.phase = .placement ∧
    (resignGame c9TerminalPlacementState .Light).winner = some (some .Dark) ∧
    (resignGame c9TerminalPlacementState .Light).winReason = some (.resignation .Light) :=
  ⟨rfl, rfl, rfl, rfl⟩

/-! ## Claim C6 (evaluator on decided positions) -/

/-- Claim C6: whenever the win detector reports a winner, the position
evaluator returns +10000 from the winner's perspective and -10000 from the
loser's perspective, for every weight set. -/
theorem C6_evaluatePosition_decided (s : GameState) (p : Player) (w : EvaluationWeights)
    (res : CheckWinResult) (h : checkWin s = some res) :
    (res.winner = some p → evaluatePosition s p w = 10000) ∧
    (res.winner = some (otherPlayer p) → evaluatePosition s p w = -10000) := by
  constructor
  · intro hw
    unfold evaluatePosition
    rw [h]
    simp [hw]
  · intro hw
    unfold evaluatePosition
    rw [h]
    simp [hw, otherPlayer_ne p]

/-- Witness for C6 at the initial state (0 ≤ 7 stones for both sides, so the
detector already reports Dark as winner there). -/
theorem C6_witness :
    checkWin initialState7x7 = some ⟨some .Dark, .stoneCount 0 7 .Light⟩ ∧
    evaluatePosition initialState7x7 .Dark (difficultyConfig .hard).weights = 10000 ∧
    evaluatePosition initialState7x7 .Light (difficultyConfig .hard).weights = -10000 :=
  ⟨by decide,
   (C6_evaluatePosition_decided initialState7x7 .Dark (difficultyConfig .hard).weights
      ⟨some .Dark, .stoneCount 0 7 .Light⟩ (by decide)).1 rfl,
   (C6_evaluatePosition_decided initialState7x7 .Light (difficultyConfig .hard).weights
      ⟨some .Dark, .stoneCount 0 7 .Light⟩ (by decide)).2 rfl⟩

/-! ## Capture walk: the center is skipped but not a barrier -/

theorem mem_walkRun_fst_not_center (b : Board) (opp : Player) (dir : Cell) :
    ∀ (fuel : Nat) (pos : Cell), ∀ x ∈ (walkRun b opp dir pos fuel).1, isCenter x = false := by
  intro fuel
  induction fuel with
  | zero => intro pos x hx; simp [walkRun] at hx
  | succ n ih =>
    intro pos x hx
    rw [walkRun] at hx
    split at hx
    · dsimp only at hx
      by_cases hc : isCenter pos
      · rw [if_pos hc] at hx
        exact ih _ x hx
      · rw [if_neg hc] at hx
        rcases List.mem_cons.mp hx with rfl | hx'
        · exact Bool.not_eq_true _ ▸ (by simpa using hc)
        · exact ih _ x hx'
    · simp at hx

theorem mem_directionCapture_not_center (b : Board) (player opp : Player) (movedTo dir : Cell) :
    ∀ x ∈ directionCapture b player opp movedTo dir, isCenter x = false := by
  intro x hx
  unfold directionCapture at hx
  dsimp only at hx
  split at hx
  · exact mem_walkRun_fst_not_center b opp dir 8 (cellStep movedTo dir) x hx
  · simp at hx

theorem mem_resolveCaptures_not_center (s : GameState) (movedTo : Cell) :
    ∀ x ∈ (resolveCaptures s movedTo).captured, isCenter x = false := by
  intro x hx
  unfold resolveCaptures at hx
  rcases heq : boardGet s.board movedTo.r movedTo.c with _ | player
  · rw [heq] at hx; simp at hx
  · rw [heq] at hx
    simp only [List.mem_flatten, List.mem_map] at hx
    obtain ⟨l, ⟨dir, _, rfl⟩, hxl⟩ := hx
    exact mem_directionCapture_not_center _ _ _ _ _ x hxl

theorem center_not_mem_resolveCaptures (s : GameState) (movedTo : Cell) :
    (⟨3, 3⟩ : Cell) ∉ (resolveCaptures s movedTo).captured := fun h => by
  have := mem_resolveCaptures_not_center s movedTo _ h
  simp [isCenter] at this

/-- The center-line scenario of the capture tests: Light at (3,1) and (3,5),
Dark at (3,2), (3,3) (the center) and (3,4); the scan starts at (3,5). -/
def c2State : GameState :=
  { board :=
      [ List.replicate 7 none, List.replicate 7 none, List.replicate 7 none,
        [none, some .Light, some .Dark, some .Dark, some .Dark, some .Light, none],
        List.replicate 7 none, List.replicate 7 none, List.replicate 7 none ]
    current := .Light
    phase := .movement
    stonesToPlace := { Light := 0, Dark := 0 }
    moveHistory := []
    variant := { firstMoveMustEnterCenter := false, antiShuttle := false, blockadeOneRemoval := true }
    placementCount := 0
    capturedLastMove := []
    stalemateOffers := { Light := false, Dark := false }
    moveRepetition := 0 }

/-- Claim C2, counterexample: with the center (3,3) occupied by the
opponent, the walk from (3,5) towards the left collects (3,4) and also
(3,2), which lies beyond the opponent-occupied center — the walk continues
past the center, contradicting "no opponent stone lying beyond the
opponent-occupied center in that direction is ever collected". -/
theorem C2_counterexample :
    boardGet c2State.board 3 3 = some .Dark ∧
    (resolveCaptures c2State ⟨3, 5⟩).captured = [⟨3, 4⟩, ⟨3, 2⟩] := by decide

/-- Claim C2, amended: the center cell is never added to a capture line, but
the walk continues past an opponent-occupied center, so opponent stones
beyond it are still collected when the line is eventually bounded (witnessed
by the concrete scenario, where (3,2) beyond the center is captured). -/
theorem C2_amended :
    (∀ (s : GameState) (movedTo : Cell), (⟨3, 3⟩ : Cell) ∉ (resolveCaptures s movedTo).captured) ∧
    (⟨3, 2⟩ : Cell) ∈ (resolveCaptures c2State ⟨3, 5⟩).captured :=
  ⟨center_not_mem_resolveCaptures, by decide⟩

/-- Witness for the amended C2 at a concrete scan. -/
theorem C2_witness : (⟨3, 3⟩ : Cell) ∉ (resolveCaptures c2State ⟨3, 5⟩).captured :=
  C2_amended.1 c2State ⟨3, 5⟩

/-! ## Claim C4 (stone conservation) -/

/-- Number of empty cells of the 7x7 board (the `emptyCellCount` quantity of
the specification), counted by the same row-major scan as `countStones`. -/
def emptyCellCount (s : GameState) : Nat :=
  ((List.range 7).map fun (r : Nat) =>
    ((List.range 7).filter fun (c : Nat) => boardGet s.board r c == none).length).sum

theorem length_filter_three {α : Type} (l : List α) (p q u : α → Bool)
    (h : ∀ x ∈ l, (p x).toNat + (q x).toNat + (u x).toNat = 1) :
    (l.filter p).length + (l.filter q).length + (l.filter u).length = l.length := by
  induction l with
  | nil => simp
  | cons a tl ih =>
    have ha := h a (by simp)
    have ht := ih fun x hx => h x (by simp [hx])
    cases hp : p a <;> cases hq : q a <;> cases hu : u a <;>
      simp [hp, hq, hu] at ha ⊢ <;> omega

theorem sum_map_add3 {α : Type} (l : List α) (f g u : α → Nat) :
    (l.map fun x => f x + g x + u x).sum = (l.map f).sum + (l.map g).sum + (l.map u).sum := by
  induction l with
  | nil => simp
  | cons a tl ih => simp [ih]; omega

/-- Every 7x7 scan partitions the 49 cells into Light, Dark and empty. -/
theorem countStones_add_emptyCellCount (s : GameState) :
    countStones s .Light + countStones s .Dark + emptyCellCount s = 49 := by
  unfold countStones emptyCellCount
  rw [← sum_map_add3]
  have hrow : ∀ r ∈ List.range 7,
      (((List.range 7).filter fun (c : Nat) => boardGet s.board r c == some Player.Light).length +
        ((List.range 7).filter fun (c : Nat) => boardGet s.board r c == some Player.Dark).length) +
        ((List.range 7).filter fun (c : Nat) => boardGet s.board r c == none).length = 7 := by
    intro r _
    have := length_filter_three (List.range 7)
      (fun (c : Nat) => boardGet s.board r c == some Player.Light)
      (fun (c : Nat) => boardGet s.board r c == some Player.Dark)
      (fun (c : Nat) => boardGet s.board r c == none)
      (fun c _ => by
        rcases h : boardGet s.board (r : Int) (c : Int) with _ | p
        · simp [h]
        · cases p <;> simp [h])
    simpa using this
  calc ((List.range 7).map fun r =>
          ((List.range 7).filter fun (c : Nat) => boardGet s.board r c == some Player.Light).length +
          ((List.range 7).filter fun (c : Nat) => boardGet s.board r c == some Player.Dark).length +
          ((List.range 7).filter fun (c : Nat) => boardGet s.board r c == none).length).sum
      = ((List.range 7).map fun _ => 7).sum := by
        exact congrArg List.sum (List.map_congr_left hrow)
    _ = 49 := by decide

/-- Claim C4: on every reachable state, Light stones plus Dark stones plus
empty cells equal 49. -/
theorem C4_stone_conservation (s : GameState) (h : Reachable s) :
    countStones s .Light + countStones s .Dark + emptyCellCount s = 49 :=
  countStones_add_emptyCellCount s

/-- Witness for C4 at the initial state. -/
theorem C4_witness :
    countStones initialState7x7 .Light + countStones initialState7x7 .Dark +
      emptyCellCount initialState7x7 = 49 :=
  C4_stone_conservation initialState7x7 (Reachable.init {})

/-! ## Board update lemmas -/

/-- The board well-formedness invariant of the source: a 7x7 array. -/
def boardWf (b : Board) : Prop :=
  b.length = 7 ∧ ∀ row ∈ b, row.length = 7

instance (b : Board) : Decidable (boardWf b) := by
  unfold boardWf
  infer_instance

theorem boardWf_boardSet (b : Board) (r c : Int) (v : Option Player) (h : boardWf b) :
    boardWf (boardSet b r c v) := by
  obtain ⟨hlen, hrow⟩ := h
  unfold boardSet
  by_cases hr : r.toNat < b.length
  · refine ⟨by simpa using hlen, ?_⟩
    intro row hmem
    rcases List.mem_or_eq_of_mem_set hmem with hmem' | rfl
    · exact hrow row hmem'
    · rw [List.length_set]
      exact hrow _ (by rw [List.getD_eq_getElem _ _ hr]; exact List.getElem_mem hr)
  · rw [List.set_eq_of_length_le (Nat.le_of_not_lt hr)]
    exact ⟨hlen, hrow⟩

theorem boardGet_boardSet_self (b : Board) {r c : Int} (v : Option Player) (h : boardWf b)
    (hr : 0 ≤ r) (hr7 : r < 7) (hc : 0 ≤ c) (hc7 : c < 7) :
    boardGet (boardSet b r c v) r c = v := by
  obtain ⟨hlen, hrow⟩ := h
  have hrn : r.toNat < b.length := by omega
  have hcn : c.toNat < (b[r.toNat]?.getD []).length := by
    rw [List.getElem?_eq_getElem hrn]
    simp only [Option.getD_some]
    rw [hrow _ (List.getElem_mem hrn)]
    omega
  unfold boardGet boardSet
  rw [if_pos ⟨hr, hr7, hc, hc7⟩]
  simp only [List.getD_eq_getElem?_getD]
  rw [List.getElem?_set_self hrn, Option.getD_some, List.getElem?_set_self hcn, Option.getD_some]

theorem boardGet_boardSet_ne (b : Board) {r c : Int} (v : Option Player) (r' c' : Int)
    (hr : 0 ≤ r) (hr7 : r < 7) (hc : 0 ≤ c) (hc7 : c < 7)
    (hne : ¬(r = r' ∧ c = c')) :
    boardGet (boardSet b r c v) r' c' = boardGet b r' c' := by
  unfold boardGet boardSet
  by_cases hin : 0 ≤ r' ∧ r' < 7 ∧ 0 ≤ c' ∧ c' < 7
  · rw [if_pos hin, if_pos hin]
    simp only [List.getD_eq_getElem?_getD]
    by_cases hrr : r.toNat = r'.toNat
    · have hreq : r = r' := by omega
      subst hreq
      have hcc : c.toNat ≠ c'.toNat := by
        intro hceq
        exact hne ⟨rfl, by omega⟩
      by_cases hlen : r.toNat < b.length
      · rw [List.getElem?_set_self hlen, Option.getD_some, List.getElem?_set_ne hcc]
      · rw [List.set_eq_of_length_le (Nat.le_of_not_lt hlen)]
    · rw [List.getElem?_set_ne hrr]
  · rw [if_neg hin, if_neg hin]

/-! ## Claim C10 (duplicate-cell placement) -/

/-- Claim C10: in the placement phase with no stone yet placed this turn,
`applyPlacement` called with the same empty, in-bounds, non-center cell as
both arguments succeeds; the board gains exactly one stone (at that cell),
yet the mover's `stonesToPlace` drops by 2, and the turn ends (the other
player becomes current and the per-turn counter resets to 0). -/
theorem C10_applyPlacement_duplicate_cell (s : GameState) (cell : Cell)
    (hwf : boardWf s.board)
    (hph : s.phase = .placement) (hpc : s.placementCount = 0)
    (hr : 0 ≤ cell.r) (hr7 : cell.r < 7) (hc : 0 ≤ cell.c) (hc7 : cell.c < 7)
    (hcen : isCenter cell = false)
    (hempty : boardGet s.board cell.r cell.c = none) :
    ∃ s', applyPlacement s (some cell) (some cell) = .ok s' ∧
      boardGet s'.board cell.r cell.c = some s.current ∧
      (∀ r' c' : Int, ¬(cell.r = r' ∧ cell.c = c') →
        boardGet s'.board r' c' = boardGet s.board r' c') ∧
      s'.stonesToPlace.get s.current = s.stonesToPlace.get s.current - 2 ∧
      s'.current = otherPlayer s.current ∧
      s'.placementCount = 0 := by
  have hin : inBounds cell = true := by
    unfold inBounds
    simp only [Bool.and_eq_true, decide_eq_true_iff]
    exact ⟨⟨⟨hr, hr7⟩, hc⟩, hc7⟩
  have hval : validatePlacements s [cell, cell] = none := by
    simp [validatePlacements, hin, hcen, hempty]
  have hget1 : boardGet (boardSet s.board cell.r cell.c (some s.current)) cell.r cell.c
      = some s.current := boardGet_boardSet_self s.board _ hwf hr hr7 hc hc7
  unfold applyPlacement
  rw [if_neg (by simp [hph]), if_neg (by simp [hpc])]
  simp only [List.filterMap, Option.some.injEq, id]
  rw [hval]
  dsimp only
  rw [if_pos (by simp [hpc])]
  split
  · refine ⟨_, rfl, ?_, ?_, ?_, ?_, ?_⟩
    · show boardGet (boardSet (boardSet s.board cell.r cell.c (some s.current))
        cell.r cell.c (some s.current)) cell.r cell.c = some s.current
      exact boardGet_boardSet_self _ _ (boardWf_boardSet _ _ _ _ hwf) hr hr7 hc hc7
    · intro r' c' hne
      show boardGet (boardSet (boardSet s.board cell.r cell.c (some s.current))
        cell.r cell.c (some s.current)) r' c' = boardGet s.board r' c'
      rw [boardGet_boardSet_ne _ _ _ _ hr hr7 hc hc7 hne,
        boardGet_boardSet_ne _ _ _ _ hr hr7 hc hc7 hne]
    · show (s.stonesToPlace.set s.current (s.stonesToPlace.get s.current - 2)).get s.current
        = s.stonesToPlace.get s.current - 2
      cases s.current <;> rfl
    · rfl
    · rfl
  · refine ⟨_, rfl, ?_, ?_, ?_, ?_, ?_⟩
    · show boardGet (boardSet (boardSet s.board cell.r cell.c (some s.current))
        cell.r cell.c (some s.current)) cell.r cell.c = some s.current
      exact boardGet_boardSet_self _ _ (boardWf_boardSet _ _ _ _ hwf) hr hr7 hc hc7
    · intro r' c' hne
      show boardGet (boardSet (boardSet s.board cell.r cell.c (some s.current))
        cell.r cell.c (some s.current)) r' c' = boardGet s.board r' c'
      rw [boardGet_boardSet_ne _ _ _ _ hr hr7 hc hc7 hne,
        boardGet_boardSet_ne _ _ _ _ hr hr7 hc hc7 hne]
    · show (s.stonesToPlace.set s.current (s.stonesToPlace.get s.current - 2)).get s.current
        = s.stonesToPlace.get s.current - 2
      cases s.current <;> rfl
    · rfl
    · rfl

/-- Witness for C10 at the initial state with cell (0,0). -/
theorem C10_witness :
    ∃ s', applyPlacement initialState7x7 (some ⟨0, 0⟩) (some ⟨0, 0⟩) = .ok s' ∧
      boardGet s'.board 0 0 = some initialState7x7.current ∧
      (∀ r' c' : Int, ¬((0 : Int) = r' ∧ (0 : Int) = c') →
        boardGet s'.board r' c' = boardGet initialState7x7.board r' c') ∧
      s'.stonesToPlace.get initialState7x7.current
        = initialState7x7.stonesToPlace.get initialState7x7.current - 2 ∧
      s'.current = otherPlayer initialState7x7.current ∧
      s'.placementCount = 0 :=
  C10_applyPlacement_duplicate_cell initialState7x7 ⟨0, 0⟩ (by decide) (by decide) (by decide)
    (by decide) (by decide) (by decide) (by decide) (by decide) (by decide)

/-! ## Anatomy of a successful `applyMove` -/

theorem mergeWin_capturedLastMove (s : GameState) :
    (mergeWin s).capturedLastMove = s.capturedLastMove := by
  unfold mergeWin; split <;> rfl

theorem mergeWin_phase (s : GameState) : (mergeWin s).phase = s.phase := by
  unfold mergeWin; split <;> rfl

theorem mergeWin_current (s : GameState) : (mergeWin s).current = s.current := by
  unfold mergeWin; split <;> rfl

theorem mergeWin_chainOrigin (s : GameState) : (mergeWin s).chainOrigin = s.chainOrigin := by
  unfold mergeWin; split <;> rfl

theorem mergeWin_board (s : GameState) : (mergeWin s).board = s.board := by
  unfold mergeWin; split <;> rfl

theorem finishMove_capturedLastMove (s : GameState) :
    (finishMove s).capturedLastMove = s.capturedLastMove := by
  unfold finishMove
  dsimp only
  split
  · rw [detectStalemate_capturedLastMove, mergeWin_capturedLastMove]
  · rw [mergeWin_capturedLastMove]

theorem finishMove_phase (s : GameState) : (finishMove s).phase = s.phase := by
  unfold finishMove
  dsimp only
  split
  · rw [detectStalemate_phase, mergeWin_phase]
  · rw [mergeWin_phase]

theorem finishMove_current (s : GameState) : (finishMove s).current = s.current := by
  unfold finishMove
  dsimp only
  split
  · rw [detectStalemate_current, mergeWin_current]
  · rw [mergeWin_current]

theorem finishMove_chainOrigin (s : GameState) : (finishMove s).chainOrigin = s.chainOrigin := by
  unfold finishMove
  dsimp only
  split
  · rw [detectStalemate_chainOrigin, mergeWin_chainOrigin]
  · rw [mergeWin_chainOrigin]

theorem finishMove_board (s : GameState) : (finishMove s).board = s.board := by
  unfold finishMove
  dsimp only
  split
  · rw [detectStalemate_board, mergeWin_board]
  · rw [mergeWin_board]

theorem applyMoveResult_capturedLastMove (s : GameState) (f t : Cell) :
    (applyMoveResult s f t).capturedLastMove = moveCaptures s f t := by
  unfold applyMoveResult
  dsimp only
  rw [finishMove_capturedLastMove]
  split <;> rfl

theorem applyMoveResult_phase (s : GameState) (f t : Cell) :
    (applyMoveResult s f t).phase =
      (if (moveCaptures s f t).length > 0 then Phase.chain else s.phase) := by
  unfold applyMoveResult
  dsimp only
  rw [finishMove_phase]
  split <;> rfl

theorem applyMoveResult_current (s : GameState) (f t : Cell) :
    (applyMoveResult s f t).current =
      (if (moveCaptures s f t).length > 0 then s.current else otherPlayer s.current) := by
  unfold applyMoveResult
  dsimp only
  rw [finishMove_current]
  split <;> rfl

theorem applyMoveResult_chainOrigin (s : GameState) (f t : Cell) :
    (applyMoveResult s f t).chainOrigin =
      (if (moveCaptures s f t).length > 0 then some t else s.chainOrigin) := by
  unfold applyMoveResult
  dsimp only
  rw [finishMove_chainOrigin]
  split <;> rfl

theorem applyMoveResult_board (s : GameState) (f t : Cell) :
    (applyMoveResult s f t).board =
      (moveCaptures s f t).foldl (fun b cell => boardSet b cell.r cell.c none)
        (moveBoard s.board s.current f t) := by
  unfold applyMoveResult
  dsimp only
  rw [finishMove_board]
  split <;> rfl

/-- Destructuring a successful `applyMove`: the validation facts it implies
and the identity of the returned state. -/
theorem applyMove_ok_dest {s : GameState} {f t : Cell} {s' : GameState}
    (h : applyMove s f t = .ok s') :
    s.phase ≠ .placement ∧ inBounds f = true ∧ inBounds t = true ∧
    boardGet s.board f.r f.c = some s.current ∧ boardGet s.board t.r t.c = none ∧
    (t.r - f.r).natAbs + (t.c - f.c).natAbs = 1 ∧
    s' = applyMoveResult s f t := by
  unfold applyMove at h
  split at h
  · simp at h
  split at h
  · simp at h
  split at h
  · simp at h
  split at h
  · simp at h
  split at h
  · simp at h
  split at h
  · simp at h
  split at h
  · simp at h
  next h1 h2 h3 h4 h5 _ _ =>
    injection h with hres
    have h2' : inBounds f = true ∧ inBounds t = true := by
      rcases hf : inBounds f with _ | _ <;> rcases ht : inBounds t with _ | _ <;>
        simp [hf, ht] at h2 <;> simp_all
    rcases h2' with ⟨hf, ht⟩
    refine ⟨h1, hf, ht, ?_, ?_, by omega, hres.symm⟩
    · simpa using h3
    · simpa using h4

/-! ## Claim C5 (post-move phase and turn) -/

/-- Claim C5, amended: a successful `applyMove` that captures at least one
stone leaves the state in Chain phase with `chainOrigin` at the destination
and the same player to move; a successful `applyMove` with zero captures
flips the player to move and keeps the phase it was invoked in (Movement
stays Movement, but a Chain input phase is not reset to Movement). -/
theorem C5_amended (s : GameState) (f t : Cell) (s' : GameState)
    (h : applyMove s f t = .ok s') :
    (s'.capturedLastMove ≠ [] →
      s'.phase = .chain ∧ s'.chainOrigin = some t ∧ s'.current = s.current) ∧
    (s'.capturedLastMove = [] →
      s'.phase = s.phase ∧ s'.current = otherPlayer s.current) := by
  obtain ⟨-, -, -, -, -, -, rfl⟩ := applyMove_ok_dest h
  rw [applyMoveResult_capturedLastMove, applyMoveResult_phase, applyMoveResult_current,
    applyMoveResult_chainOrigin]
  by_cases hc : (moveCaptures s f t).length > 0
  · have hne : moveCaptures s f t ≠ [] := by
      intro hnil
      rw [hnil] at hc
      simp at hc
    simp [hc, hne]
  · have hnil : moveCaptures s f t = [] := List.length_eq_zero.mp (by omega)
    simp [hc, hnil]

/-- A state already in Chain phase on which `applyMove` is called directly:
a lone Light stone at (0,0) with a free destination and no capture. -/
def c5ChainState : GameState :=
  { board := boardSet (List.replicate 7 (List.replicate 7 none)) 0 0 (some .Light)
    current := .Light
    phase := .chain
    chainOrigin := some ⟨0, 0⟩
    stonesToPlace := { Light := 0, Dark := 0 }
    moveHistory := []
    variant := { firstMoveMustEnterCenter := false, antiShuttle := false, blockadeOneRemoval := true }
    placementCount := 0
    capturedLastMove := []
    stalemateOffers := { Light := false, Dark := false }
    moveRepetition := 0 }

/-- The state `applyMove` returns on the chain-phase counterexample. -/
def c5CounterResult : GameState :=
  (applyMove c5ChainState ⟨0, 0⟩ ⟨0, 1⟩).toOption.getD c5ChainState

/-- Claim C5, counterexample: invoked directly on a Chain-phase state,
`applyMove` succeeds with zero captures, yet the returned phase is Chain,
not Movement as the claim states for every zero-capture success. -/
theorem C5_counterexample :
    applyMove c5ChainState ⟨0, 0⟩ ⟨0, 1⟩ = .ok c5CounterResult ∧
    c5CounterResult.capturedLastMove = [] ∧
    c5CounterResult.phase = .chain := by decide

/-- Witness for the amended C5: a zero-capture move from a Movement-phase
state flips the player and keeps the Movement phase. -/
def c5MovementState : GameState :=
  { c5ChainState with phase := .movement, chainOrigin := none }

/-- The state `applyMove` returns on the movement-phase witness input. -/
def c5WitnessResult : GameState :=
  (applyMove c5MovementState ⟨0, 0⟩ ⟨0, 1⟩).toOption.getD c5MovementState

theorem C5_witness :
    (c5WitnessResult.capturedLastMove ≠ [] →
      c5WitnessResult.phase = .chain ∧ c5WitnessResult.chainOrigin = some ⟨0, 1⟩ ∧
        c5WitnessResult.current = c5MovementState.current) ∧
    (c5WitnessResult.capturedLastMove = [] →
      c5WitnessResult.phase = c5MovementState.phase ∧
        c5WitnessResult.current = otherPlayer c5MovementState.current) :=
  C5_amended c5MovementState ⟨0, 0⟩ ⟨0, 1⟩ c5WitnessResult (by decide)

/-! ## Claim C3 (the center is never in `capturedLastMove`) -/

theorem applyPlacement_capturedLastMove {s : GameState} {c1 c2 : Option Cell} {s' : GameState}
    (h : applyPlacement s c1 c2 = .ok s') : s'.capturedLastMove = s.capturedLastMove := by
  unfold applyPlacement at h
  split at h
  · simp at h
  split at h
  · simp at h
  dsimp only at h
  split at h
  · simp at h
  split at h
  · split at h
    · cases h; rfl
    · cases h; rfl
  · cases h; rfl

theorem endChain_capturedLastMove {s s' : GameState} (h : endChain s = .ok s') :
    s'.capturedLastMove = s.capturedLastMove := by
  unfold endChain at h
  split at h
  · simp at h
  · cases h; rfl

theorem invokeBlockadeIfAny_capturedLastMove {s : GameState} {rc : Option Cell} {s' : GameState}
    (h : invokeBlockadeIfAny s rc = .ok s') : s'.capturedLastMove = s.capturedLastMove := by
  unfold invokeBlockadeIfAny at h
  split at h
  · cases h; rfl
  split at h
  · cases h; rfl
  split at h
  · cases h; rfl
  split at h
  · simp at h
  · cases h; rfl

theorem offerStalemate_capturedLastMove (s : GameState) :
    (offerStalemate s).capturedLastMove = s.capturedLastMove := by
  unfold offerStalemate
  rw [mergeWin_capturedLastMove]

theorem applyMove_center_not_captured {s : GameState} {f t : Cell} {s' : GameState}
    (h : applyMove s f t = .ok s') : (⟨3, 3⟩ : Cell) ∉ s'.capturedLastMove := by
  obtain ⟨-, -, -, -, -, -, rfl⟩ := applyMove_ok_dest h
  rw [applyMoveResult_capturedLastMove]
  exact center_not_mem_resolveCaptures _ _

/-- Claim C3: along every sequence of successful mutator applications from
the initial state, the center cell (3,3) is never an element of
`capturedLastMove` (proved for all eight public mutators, which covers the
claim's applyPlacement/applyMove/applyChainStep sequences). -/
theorem C3_center_never_in_capturedLastMove (s : GameState) (h : Reachable s) :
    (⟨3, 3⟩ : Cell) ∉ s.capturedLastMove := by
  induction h with
  | init v => simp [initialState7x7]
  | placement c1 c2 _ hok ih => rw [applyPlacement_capturedLastMove hok]; exact ih
  | move f t _ hok _ => exact applyMove_center_not_captured hok
  | chainStep t _ hok _ =>
    unfold applyChainStep at hok
    split at hok
    · simp at hok
    · exact applyMove_center_not_captured hok
  | chainEnd _ hok ih => rw [endChain_capturedLastMove hok]; exact ih
  | blockade rc _ hok ih => rw [invokeBlockadeIfAny_capturedLastMove hok]; exact ih
  | offer _ ih => rw [offerStalemate_capturedLastMove]; exact ih
  | reject p _ ih => exact ih
  | resign p _ ih => exact ih

/-- Witness for C3 at the initial state. -/
theorem C3_witness : (⟨3, 3⟩ : Cell) ∉ (initialState7x7 {}).capturedLastMove :=
  C3_center_never_in_capturedLastMove (initialState7x7 {}) (Reachable.init {})

/-! ## Claim C8 (immediate-capture bonus in the best-move driver) -/

/-- A movement-phase position where the only capturing candidate is
generated last: Light at (0,0) (blocked below by Dark), (2,2) and (2,5)
(fully blocked); Dark at (1,0), (2,4), (1,5), (3,5), (2,6).  Light has 3
stones, so every continuation is already decided (Dark wins on stone
count) and every candidate evaluates to -10000. -/
def c8State : GameState :=
  { board :=
      [ [some .Light, none, none, none, none, none, none],
        [some .Dark, none, none, none, none, some .Dark, none],
        [none, none, some .Light, none, some .Dark, some .Light, some .Dark],
        [none, none, none, none, none, some .Dark, none],
        List.replicate 7 none, List.replicate 7 none, List.replicate 7 none ]
    current := .Light
    phase := .movement
    stonesToPlace := { Light := 0, Dark := 0 }
    moveHistory := []
    variant := { firstMoveMustEnterCenter := false, antiShuttle := false, blockadeOneRemoval := true }
    placementCount := 0
    capturedLastMove := []
    stalemateOffers := { Light := false, Dark := false }
    moveRepetition := 0 }

/-- Claim C8, failing behavior at `c8State` (beginner profile, depth 1): the
move (2,2)→(2,3) does capture the Dark stone at (2,4), but the driver's own
re-run of `resolveCaptures` on the already-applied state reports no capture
(the captured stones were already removed), so no bonus ever enters the
comparison and the driver returns the first generated candidate
(0,0)→(0,1); with the claimed bonus `1 × weights.captures = 20` added to
the capturing candidate's score (-10000 + 20 against -10000), the capturing
move would have been selected. -/
theorem C8_failing_behavior :
    getBestAIMoveCore c8State .beginner =
      .ok (some { type := .movement, cells := [⟨0, 0⟩, ⟨0, 1⟩],
                  from' := some ⟨0, 0⟩, to' := some ⟨0, 1⟩ }) ∧
    (applyMove c8State ⟨2, 2⟩ ⟨2, 3⟩).map (fun s => s.capturedLastMove) = .ok [⟨2, 4⟩] ∧
    (applyMove c8State ⟨2, 2⟩ ⟨2, 3⟩).map (fun s => (resolveCaptures s ⟨2, 3⟩).captured)
      = .ok [] ∧
    (generateAllMoves c8State).length = 5 ∧
    (generateAllMoves c8State).getLast? =
      some { type := .movement, cells := [⟨2, 2⟩, ⟨2, 3⟩],
             from' := some ⟨2, 2⟩, to' := some ⟨2, 3⟩ } := by decide

/-! ## Claim C1 (capture preview agrees with `applyMove`) -/

theorem inBounds_iff (cell : Cell) :
    inBounds cell = true ↔ 0 ≤ cell.r ∧ cell.r < 7 ∧ 0 ≤ cell.c ∧ cell.c < 7 := by
  simp [inBounds, and_assoc]

theorem cell_eq_iff (a b : Cell) : a = b ↔ a.r = b.r ∧ a.c = b.c := by
  cases a; cases b; simp

/-- The validity test of `previewCaptures` is exactly membership in
`movesFor`. -/
theorem previewAny_iff (s : GameState) (f t : Cell) :
    (movesFor s f).any (fun m => m.r == t.r && m.c == t.c) = true ↔ t ∈ movesFor s f := by
  rw [List.any_eq_true]
  constructor
  · rintro ⟨m, hm, hmt⟩
    simp only [Bool.and_eq_true, beq_iff_eq] at hmt
    rwa [show t = m from (cell_eq_iff t m).mpr ⟨hmt.1.symm, hmt.2.symm⟩]
  · intro hm
    exact ⟨t, hm, by simp⟩

/-- Two boards that agree along the scanned ray produce the same walk. -/
theorem walkRun_congr (b1 b2 : Board) (opp : Player) (dir : Cell) :
    ∀ (fuel : Nat) (pos : Cell),
      (∀ k : Nat, k ≤ fuel →
        boardGet b1 (pos.r + k * dir.r) (pos.c + k * dir.c)
          = boardGet b2 (pos.r + k * dir.r) (pos.c + k * dir.c)) →
      walkRun b1 opp dir pos fuel = walkRun b2 opp dir pos fuel := by
  intro fuel
  induction fuel with
  | zero => intro pos _; rfl
  | succ n ih =>
    intro pos hagree
    have h0 : boardGet b1 pos.r pos.c = boardGet b2 pos.r pos.c := by
      have := hagree 0 (Nat.zero_le _)
      simpa using this
    have hrest : walkRun b1 opp dir (cellStep pos dir) n = walkRun b2 opp dir (cellStep pos dir) n := by
      apply ih
      intro k hk
      have := hagree (k + 1) (by omega)
      have harith : ∀ x y : Int, x + (k + 1 : Nat) * y = (x + y) + (k : Nat) * y := by
        intro x y; push_cast; ring
      rw [harith, harith] at this
      simpa [cellStep] using this
    rw [walkRun, walkRun, h0, hrest]

/-- The stopping position of a walk lies on the scanned ray. -/
theorem walkRun_stop_ray (b : Board) (opp : Player) (dir : Cell) :
    ∀ (fuel : Nat) (pos : Cell), ∃ j : Nat, j ≤ fuel ∧
      (walkRun b opp dir pos fuel).2 = ⟨pos.r + j * dir.r, pos.c + j * dir.c⟩ := by
  intro fuel
  induction fuel with
  | zero =>
    intro pos
    exact ⟨0, le_refl 0, by cases pos; simp [walkRun]⟩
  | succ n ih =>
    intro pos
    rw [walkRun]
    split
    · obtain ⟨j, hj, hstop⟩ := ih (cellStep pos dir)
      refine ⟨j + 1, by omega, ?_⟩
      dsimp only
      rw [hstop]
      rw [cell_eq_iff]
      constructor
      · show (cellStep pos dir).r + j * dir.r = pos.r + ((j + 1 : Nat) : Int) * dir.r
        simp [cellStep]; push_cast; ring
      · show (cellStep pos dir).c + j * dir.c = pos.c + ((j + 1 : Nat) : Int) * dir.c
        simp [cellStep]; push_cast; ring
    · exact ⟨0, by omega, by cases pos; simp⟩

/-- Two boards that agree along the scanned ray (including the stopping
cell) produce the same per-direction capture line. -/
theorem directionCapture_congr (b1 b2 : Board) (player opp : Player) (movedTo dir : Cell)
    (hray : ∀ k : Nat, k ≤ 8 →
      boardGet b1 ((cellStep movedTo dir).r + k * dir.r) ((cellStep movedTo dir).c + k * dir.c)
        = boardGet b2 ((cellStep movedTo dir).r + k * dir.r) ((cellStep movedTo dir).c + k * dir.c)) :
    directionCapture b1 player opp movedTo dir = directionCapture b2 player opp movedTo dir := by
  unfold directionCapture
  rw [walkRun_congr b1 b2 opp dir 8 (cellStep movedTo dir) hray]
  obtain ⟨j, hj, hstop⟩ := walkRun_stop_ray b2 opp dir 8 (cellStep movedTo dir)
  dsimp only
  rw [hstop]
  dsimp only
  rw [hray j hj]

/-- Both the moved board and the original board stop the walk immediately in
the direction that points back at the origin of the move: the moved board is
empty there, the original board holds the mover's own stone there. -/
theorem directionCapture_toward_origin (b : Board) (cur : Player) (f t dir : Cell)
    (hwf : boardWf b)
    (hfr : 0 ≤ f.r) (hfr7 : f.r < 7) (hfc : 0 ≤ f.c) (hfc7 : f.c < 7)
    (htr : 0 ≤ t.r) (htr7 : t.r < 7) (htc : 0 ≤ t.c) (htc7 : t.c < 7)
    (hft : f ≠ t)
    (hcur : boardGet b f.r f.c = some cur)
    (heq : cellStep t dir = f) :
    directionCapture (moveBoard b cur f t) cur (otherPlayer cur) t dir = [] ∧
    directionCapture b cur (otherPlayer cur) t dir = [] := by
  have hmoved : boardGet (moveBoard b cur f t) f.r f.c = none := by
    unfold moveBoard
    rw [boardGet_boardSet_ne _ _ _ _ htr htr7 htc htc7
      (fun hc => hft ((cell_eq_iff f t).mpr ⟨hc.1.symm, hc.2.symm⟩))]
    exact boardGet_boardSet_self b _ hwf hfr hfr7 hfc hfc7
  constructor
  · unfold directionCapture
    rw [heq, show (8 : Nat) = 7 + 1 from rfl, walkRun, hmoved]
    simp
  · unfold directionCapture
    rw [heq, show (8 : Nat) = 7 + 1 from rfl, walkRun, hcur]
    have hne : cur ≠ otherPlayer cur := Ne.symm (otherPlayer_ne cur)
    simp [hne]

/-- Away from the origin direction, the moved board agrees with the original
board on the whole scanned ray: the ray never revisits the origin or the
destination of the move. -/
theorem moveBoard_ray_agree (b : Board) (cur : Player) (f t dir : Cell)
    (hfr : 0 ≤ f.r) (hfr7 : f.r < 7) (hfc : 0 ≤ f.c) (hfc7 : f.c < 7)
    (htr : 0 ≤ t.r) (htr7 : t.r < 7) (htc : 0 ≤ t.c) (htc7 : t.c < 7)
    (hdist : (t.r - f.r).natAbs + (t.c - f.c).natAbs = 1)
    (hdir : dir ∈ directions)
    (hne : cellStep t dir ≠ f) :
    ∀ k : Nat, k ≤ 8 →
      boardGet (moveBoard b cur f t)
          ((cellStep t dir).r + k * dir.r) ((cellStep t dir).c + k * dir.c)
        = boardGet b ((cellStep t dir).r + k * dir.r) ((cellStep t dir).c + k * dir.c) := by
  intro k _
  rw [ne_eq, cell_eq_iff] at hne
  simp only [directions, List.mem_cons, List.not_mem_nil, or_false] at hdir
  have hnt : ¬(t.r = (cellStep t dir).r + (k : Int) * dir.r ∧
      t.c = (cellStep t dir).c + (k : Int) * dir.c) := by
    rcases hdir with rfl | rfl | rfl | rfl <;> simp only [cellStep] at hne ⊢ <;> omega
  have hnf : ¬(f.r = (cellStep t dir).r + (k : Int) * dir.r ∧
      f.c = (cellStep t dir).c + (k : Int) * dir.c) := by
    rcases hdir with rfl | rfl | rfl | rfl <;> simp only [cellStep] at hne ⊢ <;> omega
  unfold moveBoard
  rw [boardGet_boardSet_ne _ _ _ _ htr htr7 htc htc7 hnt,
    boardGet_boardSet_ne _ _ _ _ hfr hfr7 hfc hfc7 hnf]

/-- Claim C1: for a successful `applyMove`, `previewCaptures` on the
unmodified state returns exactly the `capturedLastMove` list of the
resulting state; for a destination that is not a legal movement destination
of the origin, `previewCaptures` returns the empty list.  (As a pure
function of the state, `previewCaptures` cannot modify it.) -/
theorem C1_previewCaptures_agrees (s : GameState) (f t : Cell) (hwf : boardWf s.board) :
    (∀ s', applyMove s f t = .ok s' → previewCaptures s f t = s'.capturedLastMove) ∧
    (t ∉ movesFor s f → previewCaptures s f t = []) := by
  constructor
  · intro s' h
    obtain ⟨h1, hfb, htb, hcur, hempty, hdist, rfl⟩ := applyMove_ok_dest h
    rw [applyMoveResult_capturedLastMove]
    obtain ⟨hfr, hfr7, hfc, hfc7⟩ := (inBounds_iff f).mp hfb
    obtain ⟨htr, htr7, htc, htc7⟩ := (inBounds_iff t).mp htb
    have hft : f ≠ t := by
      rw [ne_eq, cell_eq_iff]
      omega
    have hmem : t ∈ movesFor s f := by
      unfold movesFor
      rw [if_neg h1, if_neg (by simp [hfb, hcur])]
      rw [List.mem_filter]
      refine ⟨?_, by simp [hempty]⟩
      unfold neighbors
      rw [List.mem_filter]
      refine ⟨?_, htb⟩
      rw [List.mem_map]
      refine ⟨⟨t.r - f.r, t.c - f.c⟩, ?_, ?_⟩
      · simp only [directions, List.mem_cons, List.not_mem_nil, or_false, cell_eq_iff]
        omega
      · rw [cell_eq_iff]
        unfold cellStep
        constructor <;> dsimp only <;> ring
    have hany := (previewAny_iff s f t).mpr hmem
    unfold previewCaptures
    rw [if_neg (by simp [hany])]
    rw [hcur]
    have hmb : boardGet (movedState s f t).board t.r t.c = some s.current := by
      show boardGet (moveBoard s.board s.current f t) t.r t.c = some s.current
      unfold moveBoard
      exact boardGet_boardSet_self _ _ (boardWf_boardSet _ _ _ _ hwf) htr htr7 htc htc7
    unfold moveCaptures resolveCaptures
    rw [hmb]
    dsimp only
    have hdirs : ∀ dir ∈ directions,
        directionCapture s.board s.current (otherPlayer s.current) t dir
          = directionCapture (movedState s f t).board s.current (otherPlayer s.current) t dir := by
      intro dir hdir
      show _ = directionCapture (moveBoard s.board s.current f t) _ _ t dir
      by_cases heq : cellStep t dir = f
      · obtain ⟨hm, ho⟩ := directionCapture_toward_origin s.board s.current f t dir hwf
          hfr hfr7 hfc hfc7 htr htr7 htc htc7 hft hcur heq
        rw [hm, ho]
      · exact (directionCapture_congr _ _ _ _ t dir
          (moveBoard_ray_agree s.board s.current f t dir hfr hfr7 hfc hfc7
            htr htr7 htc htc7 hdist hdir heq)).symm
    rw [List.map_congr_left hdirs]
  · intro hnot
    unfold previewCaptures
    have hany : (movesFor s f).any (fun m => m.r == t.r && m.c == t.c) = false := by
      rcases hval : (movesFor s f).any (fun m => m.r == t.r && m.c == t.c) with _ | _
      · rfl
      · exact absurd ((previewAny_iff s f t).mp hval) hnot
    rw [if_pos (by simp [hany])]

/-- Witness for C1: the capture scenario of `c8State` — the preview of the
capturing move (2,2)→(2,3) equals the resulting `capturedLastMove`, and an
illegal destination previews as empty. -/
theorem C1_witness :
    previewCaptures c8State ⟨2, 2⟩ ⟨2, 3⟩ = [⟨2, 4⟩] ∧
    previewCaptures c8State ⟨2, 2⟩ ⟨4, 4⟩ = [] := by
  constructor
  · rw [(C1_previewCaptures_agrees c8State ⟨2, 2⟩ ⟨2, 3⟩ (by decide)).1
      ((applyMove c8State ⟨2, 2⟩ ⟨2, 3⟩).toOption.getD c8State) (by decide)]
    decide
  · exact (C1_previewCaptures_agrees c8State ⟨2, 2⟩ ⟨4, 4⟩ (by decide)).2 (by decide)

/-! ## Claim C7 (alpha-beta pruning does not change the minimax value)

The proof follows the classical fail-soft correctness argument: relative to
a window `(alpha, beta)`, the pruned fold returns a value that agrees with
the unpruned value after clamping into the window
(`max alpha (min beta _)`); at the full window `(⊥, ⊤)` the clamp is the
identity. -/

theorem exceptBind_ok {α β : Type} (a : α) (f : α → Except RulesError β) :
    (Except.ok a >>= f) = f a := rfl

theorem exceptBind_err {α β : Type} (e : RulesError) (f : α → Except RulesError β) :
    ((Except.error e : Except RulesError α) >>= f) = Except.error e := rfl

theorem plainMaxGo_ge {apply : AIMove → Except RulesError GameState}
    {child : GameState → Except RulesError ERat} :
    ∀ {moves : List AIMove} {m r : ERat},
      plainMaxGo apply child moves m = .ok r → m ≤ r := by
  intro moves
  induction moves with
  | nil =>
    intro m r h
    rw [plainMaxGo] at h
    cases h
    exact le_refl _
  | cons mv rest ih =>
    intro m r h
    rw [plainMaxGo] at h
    rcases happ : apply mv with e | ns
    · rw [happ, exceptBind_err] at h; exact absurd h (by simp)
    rw [happ, exceptBind_ok] at h
    rcases hch : child ns with e | v
    · rw [hch, exceptBind_err] at h; exact absurd h (by simp)
    rw [hch, exceptBind_ok] at h
    exact le_trans (le_max_left m v) (ih h)

theorem plainMinGo_le {apply : AIMove → Except RulesError GameState}
    {child : GameState → Except RulesError ERat} :
    ∀ {moves : List AIMove} {m r : ERat},
      plainMinGo apply child moves m = .ok r → r ≤ m := by
  intro moves
  induction moves with
  | nil =>
    intro m r h
    rw [plainMinGo] at h
    cases h
    exact le_refl _
  | cons mv rest ih =>
    intro m r h
    rw [plainMinGo] at h
    rcases happ : apply mv with e | ns
    · rw [happ, exceptBind_err] at h; exact absurd h (by simp)
    rw [happ, exceptBind_ok] at h
    rcases hch : child ns with e | v
    · rw [hch, exceptBind_err] at h; exact absurd h (by simp)
    rw [hch, exceptBind_ok] at h
    exact le_trans (ih h) (min_le_left m v)

theorem maxGo_ge {apply : AIMove → Except RulesError GameState}
    {child : GameState → ERat → ERat → Except RulesError ERat} {beta : ERat} :
    ∀ {moves : List AIMove} {alpha m r : ERat},
      maxGo apply child beta moves alpha m = .ok r → m ≤ r := by
  intro moves
  induction moves with
  | nil =>
    intro alpha m r h
    rw [maxGo] at h
    cases h
    exact le_refl _
  | cons mv rest ih =>
    intro alpha m r h
    rw [maxGo] at h
    rcases happ : apply mv with e | ns
    · rw [happ, exceptBind_err] at h; exact absurd h (by simp)
    rw [happ, exceptBind_ok] at h
    rcases hch : child ns alpha beta with e | v
    · rw [hch, exceptBind_err] at h; exact absurd h (by simp)
    rw [hch, exceptBind_ok] at h
    dsimp only at h
    split at h
    · cases h
      exact le_max_left m v
    · exact le_trans (le_max_left m v) (ih h)

theorem minGo_le {apply : AIMove → Except RulesError GameState}
    {child : GameState → ERat → ERat → Except RulesError ERat} {alpha : ERat} :
    ∀ {moves : List AIMove} {beta m r : ERat},
      minGo apply child alpha moves beta m = .ok r → r ≤ m := by
  intro moves
  induction moves with
  | nil =>
    intro beta m r h
    rw [minGo] at h
    cases h
    exact le_refl _
  | cons mv rest ih =>
    intro beta m r h
    rw [minGo] at h
    rcases happ : apply mv with e | ns
    · rw [happ, exceptBind_err] at h; exact absurd h (by simp)
    rw [happ, exceptBind_ok] at h
    rcases hch : child ns alpha beta with e | v
    · rw [hch, exceptBind_err] at h; exact absurd h (by simp)
    rw [hch, exceptBind_ok] at h
    dsimp only at h
    split at h
    · cases h
      exact min_le_left m v
    · exact le_trans (ih h) (min_le_left m v)

theorem clamp_comm {alpha beta x : ERat} (h : alpha ≤ beta) :
    max alpha (min beta x) = min beta (max alpha x) := by
  rw [max_min_distrib_left, max_eq_right h]

theorem maxGo_clamp {apply : AIMove → Except RulesError GameState}
    {childAB : GameState → ERat → ERat → Except RulesError ERat}
    {childPlain : GameState → Except RulesError ERat} {beta : ERat}
    (hchild : ∀ ns (a v : ERat), a < beta → childPlain ns = .ok v →
      ∃ r, childAB ns a beta = .ok r ∧ max a (min beta r) = max a (min beta v)) :
    ∀ {moves : List AIMove} {alpha m mp vp : ERat},
      alpha < beta → m ≤ alpha → min beta mp ≤ alpha →
      plainMaxGo apply childPlain moves mp = .ok vp →
      ∃ r, maxGo apply childAB beta moves alpha m = .ok r ∧
        max alpha (min beta r) = max alpha (min beta vp) := by
  intro moves
  induction moves with
  | nil =>
    intro alpha m mp vp hab hm hmp h
    rw [plainMaxGo] at h
    cases h
    rw [maxGo]
    refine ⟨m, rfl, ?_⟩
    rw [max_eq_left (le_trans (min_le_right beta m) hm), max_eq_left hmp]
  | cons mv rest ih =>
    intro alpha m mp vp hab hm hmp h
    rw [plainMaxGo] at h
    rcases happ : apply mv with e | ns
    · rw [happ, exceptBind_err] at h; exact absurd h (by simp)
    rw [happ, exceptBind_ok] at h
    rcases hch : childPlain ns with e | u
    · rw [hch, exceptBind_err] at h; exact absurd h (by simp)
    rw [hch, exceptBind_ok] at h
    obtain ⟨r₁, hr₁, hclamp₁⟩ := hchild ns alpha u hab hch
    rw [maxGo, happ, exceptBind_ok]
    dsimp only
    rw [hr₁, exceptBind_ok]
    by_cases hcut : beta ≤ max alpha r₁
    · rw [if_pos hcut]
      refine ⟨max m r₁, rfl, ?_⟩
      have hβr₁ : beta ≤ r₁ := by
        rcases le_max_iff.mp hcut with hc | hc
        · exact absurd hab (not_lt.mpr hc)
        · exact hc
      have h1 : min beta (max m r₁) = beta :=
        min_eq_left (le_trans hβr₁ (le_max_right m r₁))
      rw [min_eq_left hβr₁, max_eq_right (le_of_lt hab)] at hclamp₁
      have h4 : beta ≤ u := by
        by_contra hlt
        push_neg at hlt
        rw [min_eq_right (le_of_lt hlt)] at hclamp₁
        exact absurd hclamp₁.symm (ne_of_lt (max_lt hab hlt))
      have h5 : u ≤ vp := le_trans (le_max_right mp u) (plainMaxGo_ge h)
      rw [h1, min_eq_left (le_trans h4 h5)]
    · rw [if_neg hcut]
      push_neg at hcut
      have hm' : max m r₁ ≤ max alpha r₁ := max_le_max hm (le_refl r₁)
      have hu' : min beta u ≤ max alpha r₁ :=
        calc min beta u ≤ max alpha (min beta u) := le_max_right _ _
          _ = max alpha (min beta r₁) := hclamp₁.symm
          _ ≤ max alpha r₁ := max_le_max (le_refl alpha) (min_le_right beta r₁)
      have hmp' : min beta (max mp u) ≤ max alpha r₁ := by
        rw [min_max_distrib_left]
        exact max_le (le_trans hmp (le_max_left alpha r₁)) hu'
      obtain ⟨r, hr, hclamp⟩ := ih hcut hm' hmp' h
      refine ⟨r, hr, ?_⟩
      have hrge : r₁ ≤ r := le_trans (le_max_right m r₁) (maxGo_ge hr)
      have hvpge : u ≤ vp := le_trans (le_max_right mp u) (plainMaxGo_ge h)
      by_cases hA1 : max alpha r₁ < min beta r
      · rw [max_eq_right (le_of_lt hA1)] at hclamp
        have hBA : min beta vp = min beta r := by
          rcases max_cases (max alpha r₁) (min beta vp) with ⟨he, _⟩ | ⟨he, _⟩
          · rw [he] at hclamp; exact absurd hclamp (ne_of_gt hA1)
          · rw [he] at hclamp; exact hclamp.symm
        rw [hBA]
      · by_cases hB1 : max alpha r₁ < min beta vp
        · rw [max_eq_right (le_of_lt hB1)] at hclamp
          have hAB : min beta r = min beta vp := by
            rcases max_cases (max alpha r₁) (min beta r) with ⟨he, _⟩ | ⟨he, _⟩
            · rw [he] at hclamp; exact absurd hclamp.symm (ne_of_gt hB1)
            · rw [he] at hclamp; exact hclamp
          rw [hAB]
        · push_neg at hA1 hB1
          by_cases hr₁a : r₁ ≤ alpha
          · rw [max_eq_left hr₁a] at hA1 hB1
            rw [max_eq_left hA1, max_eq_left hB1]
          · push_neg at hr₁a
            rw [max_eq_right (le_of_lt hr₁a)] at hA1 hB1 hcut
            have hA2 : r₁ ≤ min beta r := by
              have hmono : min beta r₁ ≤ min beta r := min_le_min (le_refl beta) hrge
              rwa [min_eq_right (le_of_lt hcut)] at hmono
            rw [min_eq_right (le_of_lt hcut), max_eq_right (le_of_lt hr₁a)] at hclamp₁
            have hu2 : min beta u = r₁ := by
              rcases max_cases alpha (min beta u) with ⟨he, _⟩ | ⟨he, _⟩
              · rw [he] at hclamp₁; exact absurd hclamp₁.symm (ne_of_lt hr₁a)
              · rw [he] at hclamp₁; exact hclamp₁.symm
            have hB2 : r₁ ≤ min beta vp := by
              have hmono : min beta u ≤ min beta vp := min_le_min (le_refl beta) hvpge
              rwa [hu2] at hmono
            rw [le_antisymm hA1 hA2, le_antisymm hB1 hB2]

theorem minGo_clamp {apply : AIMove → Except RulesError GameState}
    {childAB : GameState → ERat → ERat → Except RulesError ERat}
    {childPlain : GameState → Except RulesError ERat} {alpha : ERat}
    (hchild : ∀ ns (b v : ERat), alpha < b → childPlain ns = .ok v →
      ∃ r, childAB ns alpha b = .ok r ∧ max alpha (min b r) = max alpha (min b v)) :
    ∀ {moves : List AIMove} {beta m mp vp : ERat},
      alpha < beta → beta ≤ m → beta ≤ max alpha mp →
      plainMinGo apply childPlain moves mp = .ok vp →
      ∃ r, minGo apply childAB alpha moves beta m = .ok r ∧
        max alpha (min beta r) = max alpha (min beta vp) := by
  intro moves
  induction moves with
  | nil =>
    intro beta m mp vp hab hm hmp h
    rw [plainMinGo] at h
    cases h
    rw [minGo]
    refine ⟨m, rfl, ?_⟩
    have hmpβ : beta ≤ mp := by
      by_contra hlt
      push_neg at hlt
      exact absurd hmp (not_le.mpr (max_lt hab hlt))
    rw [min_eq_left hm, min_eq_left hmpβ]
  | cons mv rest ih =>
    intro beta m mp vp hab hm hmp h
    rw [plainMinGo] at h
    rcases happ : apply mv with e | ns
    · rw [happ, exceptBind_err] at h; exact absurd h (by simp)
    rw [happ, exceptBind_ok] at h
    rcases hch : childPlain ns with e | u
    · rw [hch, exceptBind_err] at h; exact absurd h (by simp)
    rw [hch, exceptBind_ok] at h
    obtain ⟨r₁, hr₁, hclamp₁⟩ := hchild ns beta u hab hch
    rw [minGo, happ, exceptBind_ok]
    dsimp only
    rw [hr₁, exceptBind_ok]
    by_cases hcut : min beta r₁ ≤ alpha
    · rw [if_pos hcut]
      refine ⟨min m r₁, rfl, ?_⟩
      have h1 : min beta (min m r₁) ≤ alpha :=
        le_trans (min_le_min (le_refl beta) (min_le_right m r₁)) hcut
      rw [max_eq_left hcut] at hclamp₁
      have h2 : min beta u ≤ alpha := by
        by_contra hgt
        push_neg at hgt
        rcases max_cases alpha (min beta u) with ⟨_, hle⟩ | ⟨he, _⟩
        · exact absurd hgt (not_lt.mpr hle)
        · rw [he] at hclamp₁; exact absurd hclamp₁ (ne_of_lt hgt)
      have h3 : vp ≤ u := le_trans (plainMinGo_le h) (min_le_right mp u)
      have h4 : min beta vp ≤ alpha := le_trans (min_le_min (le_refl beta) h3) h2
      rw [max_eq_left h1, max_eq_left h4]
    · rw [if_neg hcut]
      push_neg at hcut
      have hm' : min beta r₁ ≤ min m r₁ := min_le_min hm (le_refl r₁)
      have hu' : min beta r₁ ≤ max alpha u :=
        calc min beta r₁ ≤ max alpha (min beta r₁) := le_max_right _ _
          _ = max alpha (min beta u) := hclamp₁
          _ ≤ max alpha u := max_le_max (le_refl alpha) (min_le_right beta u)
      have hmp' : min beta r₁ ≤ max alpha (min mp u) := by
        rw [max_min_distrib_left]
        exact le_min (le_trans (min_le_left beta r₁) hmp) hu'
      obtain ⟨r, hr, hclamp⟩ := ih hcut hm' hmp' h
      refine ⟨r, hr, ?_⟩
      have hrle : r ≤ r₁ := le_trans (minGo_le hr) (min_le_right m r₁)
      have hvple : vp ≤ u := le_trans (plainMinGo_le h) (min_le_right mp u)
      have habr : alpha < r₁ := lt_of_lt_of_le hcut (min_le_right beta r₁)
      rw [clamp_comm (le_of_lt hcut), clamp_comm (le_of_lt hcut)] at hclamp
      rw [clamp_comm (le_of_lt hab), clamp_comm (le_of_lt hab)]
      by_cases hA1 : max alpha r < min beta r₁
      · rw [min_eq_right (le_of_lt hA1)] at hclamp
        have hBA : max alpha vp = max alpha r := by
          rcases min_cases (min beta r₁) (max alpha vp) with ⟨he, _⟩ | ⟨he, _⟩
          · rw [he] at hclamp; exact absurd hclamp (ne_of_lt hA1)
          · rw [he] at hclamp; exact hclamp.symm
        rw [hBA]
      · by_cases hB1 : max alpha vp < min beta r₁
        · rw [min_eq_right (le_of_lt hB1)] at hclamp
          have hAB : max alpha r = max alpha vp := by
            rcases min_cases (min beta r₁) (max alpha r) with ⟨he, _⟩ | ⟨he, _⟩
            · rw [he] at hclamp; exact absurd hclamp.symm (ne_of_lt hB1)
            · rw [he] at hclamp; exact hclamp
          rw [hAB]
        · push_neg at hA1 hB1
          by_cases hbr : beta ≤ r₁
          · rw [min_eq_left hbr] at hA1 hB1
            rw [min_eq_left hA1, min_eq_left hB1]
          · push_neg at hbr
            rw [min_eq_right (le_of_lt hbr)] at hA1 hB1 hcut
            have hA2 : max alpha r ≤ r₁ := by
              have hmono : max alpha r ≤ max alpha r₁ := max_le_max (le_refl alpha) hrle
              rwa [max_eq_right (le_of_lt habr)] at hmono
            rw [clamp_comm (le_of_lt hab), clamp_comm (le_of_lt hab),
              max_eq_right (le_of_lt habr), min_eq_right (le_of_lt hbr)] at hclamp₁
            have hu2 : max alpha u = r₁ := by
              rcases min_cases beta (max alpha u) with ⟨he, _⟩ | ⟨he, _⟩
              · rw [he] at hclamp₁; exact absurd hclamp₁ (ne_of_lt hbr)
              · rw [he] at hclamp₁; exact hclamp₁.symm
            have hB2 : max alpha vp ≤ r₁ := by
              have hmono : max alpha vp ≤ max alpha u := max_le_max (le_refl alpha) hvple
              rwa [hu2] at hmono
            rw [le_antisymm hA2 hA1, le_antisymm hB2 hB1]

theorem minimax_clamp :
    ∀ (d : Nat) (s : GameState) (maxim : Bool) (p : Player) (w : EvaluationWeights)
      (alpha beta v : ERat), alpha < beta →
      minimaxPlain d s maxim p w = .ok v →
      ∃ r, minimax d s maxim p w alpha beta = .ok r ∧
        max alpha (min beta r) = max alpha (min beta v) := by
  intro d
  induction d with
  | zero =>
    intro s maxim p w alpha beta v hab h
    rw [minimaxPlain] at h
    cases h
    exact ⟨_, rfl, rfl⟩
  | succ d ih =>
    intro s maxim p w alpha beta v hab h
    rw [minimaxPlain] at h
    rw [minimax]
    dsimp only at h ⊢
    by_cases hwin : (checkWin s).isSome
    · rw [if_pos hwin] at h ⊢
      cases h
      exact ⟨_, rfl, rfl⟩
    · rw [if_neg hwin] at h ⊢
      by_cases hemp : (generateAllMoves s).isEmpty
      · rw [if_pos hemp] at h ⊢
        cases h
        exact ⟨_, rfl, rfl⟩
      · rw [if_neg hemp] at h ⊢
        cases maxim with
        | false =>
          rw [if_neg (by simp)] at h ⊢
          exact minGo_clamp
            (fun ns b v' hab' hch => ih ns true p w alpha b v' hab' hch)
            hab le_top (le_trans le_top (le_max_right alpha ⊤)) h
        | true =>
          rw [if_pos rfl] at h ⊢
          exact maxGo_clamp
            (fun ns a v' hab' hch => ih ns false p w a beta v' hab' hch)
            hab bot_le (le_trans (min_le_right beta ⊥) bot_le) h

/-- **C7**: for every state, depth, maximizing flag, player, and weight set,
`minimax` with alpha-beta pruning started at the full window
(`alpha = -Infinity`, `beta = +Infinity`) returns the same value as the same
recursion with the pruning cutoff removed: pruning never changes the
computed score. -/
theorem C7_alphabeta_eq_minimax (d : Nat) (s : GameState) (maxim : Bool)
    (p : Player) (w : EvaluationWeights) (v : ERat)
    (h : minimaxPlain d s maxim p w = .ok v) :
    minimax d s maxim p w ⊥ ⊤ = .ok v := by
  obtain ⟨r, hr, hclamp⟩ := minimax_clamp d s maxim p w ⊥ ⊤ v bot_lt_top h
  rw [min_eq_right le_top, min_eq_right le_top, max_eq_right bot_le,
    max_eq_right bot_le] at hclamp
  rw [hr, hclamp]

/-- Witness for C7 at a concrete input: on `c8State` (a decided position)
with the beginner weights at depth 1, the plain recursion returns the score
`-10000`, and the pruned recursion at the full window returns the same. -/
theorem C7_witness :
    minimax 1 c8State true .Light (difficultyConfig .beginner).weights ⊥ ⊤ =
      .ok (toERat (-10000)) :=
  C7_alphabeta_eq_minimax 1 c8State true .Light
    (difficultyConfig .beginner).weights (toERat (-10000)) (by decide)

end Seejeh
